import Mathlib

/-!
Verification development for the `trend` demand-sensing repository.

The repository collects social-media hashtag metrics (TikTok, Instagram) and
marketplace metrics (Allegro) and stores them in a SQLite database with
upsert semantics.  This file gives a shallow embedding of the core logic:

* `src/allegro_scraper.py` — `AllegroScraper._parse_price`,
  `AllegroScraper._extract_sales_proxy`, and the aggregation part of
  `AllegroScraper.scrape_product_keyword`;
* `src/tiktok_scraper.py` — `TikTokScraper._parse_count` and
  `TikTokScraper._extract_hashtag_data`;
* `src/instagram_scraper.py` — `InstagramScraper._extract_hashtag_data`;
* `src/db_manager.py` — `DatabaseManager.get_platform_id/get_hashtag_id/
  get_product_id`, `insert_social_metric`, `insert_marketplace_metric`,
  `get_social_metrics`, `get_marketplace_metrics`, against the schema of
  `src/db_schema.py`.

Modelling conventions:

* Python strings are `List Char` (`Str` below); SQLite TEXT comparison
  (BINARY collation, bytewise on UTF-8) is the lexicographic order on the
  code points, which agrees with bytewise order for UTF-8.
* Python `date` values are modelled by their ISO `YYYY-MM-DD` TEXT form,
  which is how `sqlite3` stores them; SQLite `BETWEEN`/`ORDER BY` compare
  those strings.
* Python floats are modelled exactly as rational numbers.  `float` values
  produced by the parsers are decimal fractions, kept as an unreduced
  numerator/denominator pair `Dec` so that all computations kernel-reduce.
  (IEEE-754 double rounding is not modelled; for every concrete instance
  proved here the double-rounded result agrees with the exact one.
  `float('inf')/float('nan')` literals and underscore digit separators are
  outside the model: the modelled `float()`/`int()` parsers reject them.)
* A raised-and-uncaught Python exception is `PyResult.exn` (or `none` for
  functions whose callers catch everything and turn it into `None`).
* Calls into third-party libraries (BeautifulSoup element search,
  `json.loads`, `re.search`) are modelled by record fields describing the
  outcome of each probe on the page content; the control flow that combines
  the probes is translated from the source.
-/

/-- Python strings, as lists of code points. -/
abbrev Str := List Char

/-- The character class `\d` of Python's `re` and the digits accepted by
`float()`/`int()`: ASCII `0`–`9` (code points 48–57). -/
def isDigitC (c : Char) : Bool := 48 ≤ c.toNat && c.toNat ≤ 57

/-- ASCII whitespace stripped by Python's `str.strip()` / `float()` / `int()`:
space, tab, newline, carriage return, vertical tab, form feed. -/
def isSpaceC (c : Char) : Bool :=
  c.toNat == 32 || c.toNat == 9 || c.toNat == 10 || c.toNat == 13 ||
  c.toNat == 11 || c.toNat == 12

/-- Python `str.upper()` on one character, for the ASCII range (the inputs of
interest — digits, `.`, `k/m/b` suffixes — are ASCII; non-ASCII case mapping
is not modelled). -/
def pyCharUpper (c : Char) : Char :=
  if 97 ≤ c.toNat ∧ c.toNat ≤ 122 then Char.ofNat (c.toNat - 32) else c

/-- Python `str.strip()`: drop leading and trailing whitespace. -/
def pyStrip (l : Str) : Str :=
  ((l.dropWhile isSpaceC).reverse.dropWhile isSpaceC).reverse

/-- Value of a list of ASCII digits read in base 10. -/
def digitsVal (l : Str) : Nat := l.foldl (fun a c => 10 * a + (c.toNat - 48)) 0

/-- Python `str.replace(p, r)` (left-to-right, non-overlapping), written with
explicit fuel so that it is structurally recursive. -/
def replaceGo (p r : Str) : Nat → Str → Str
  | 0, l => l
  | _ + 1, [] => []
  | fuel + 1, c :: rest =>
    if p ≠ [] ∧ p.isPrefixOf (c :: rest) then
      r ++ replaceGo p r fuel ((c :: rest).drop p.length)
    else
      c :: replaceGo p r fuel rest

/-- Python `str.replace(p, r)`. -/
def replaceList (p r l : Str) : Str := replaceGo p r l.length l

/-- An exact decimal fraction `num / den`, the model of the finite binary
floats produced by the parsers.  Kept unreduced (`den` is always a positive
power of ten here) so that every operation kernel-reduces. -/
structure Dec where
  num : Int
  den : Nat
deriving DecidableEq

/-- The rational value of a `Dec`. -/
def Dec.toRat (d : Dec) : ℚ := (d.num : ℚ) / (d.den : ℚ)

/-- Python `int(x)` for a float `x`: truncation toward zero. -/
def pyTruncDec (d : Dec) : Int := d.num.tdiv (d.den : Int)

/-- Truncation toward zero on rationals (specification-side counterpart of
`pyTruncDec`). -/
def pyTruncQ (q : ℚ) : ℤ := if 0 ≤ q then ⌊q⌋ else -⌊-q⌋

/-- Exponent part of a Python float literal: accepts `[eE][+-]?digits` (or
nothing) after the mantissa `m`, scaling `m` accordingly. -/
def pyExpPart (m : Dec) (l : Str) : Option Dec :=
  match l with
  | [] => some m
  | c :: rest =>
    if c = 'e' ∨ c = 'E' then
      match rest with
      | [] => none
      | '+' :: ds =>
        if ds ≠ [] ∧ ds.all isDigitC then some ⟨m.num * (10 : Int) ^ digitsVal ds, m.den⟩
        else none
      | '-' :: ds =>
        if ds ≠ [] ∧ ds.all isDigitC then some ⟨m.num, m.den * 10 ^ digitsVal ds⟩
        else none
      | ds =>
        if ds.all isDigitC then some ⟨m.num * (10 : Int) ^ digitsVal ds, m.den⟩
        else none
    else none

/-- Unsigned part of Python `float(s)`: `digits [. digits] [exp]` or
`. digits [exp]`, rejecting anything else. -/
def pyFloatCore (l : Str) : Option Dec :=
  match l.dropWhile isDigitC with
  | '.' :: r2 =>
    if (l.takeWhile isDigitC).isEmpty ∧ (r2.takeWhile isDigitC).isEmpty then none
    else
      pyExpPart
        ⟨(digitsVal (l.takeWhile isDigitC) : Int) * (10 : Int) ^ (r2.takeWhile isDigitC).length +
            (digitsVal (r2.takeWhile isDigitC) : Int), 10 ^ (r2.takeWhile isDigitC).length⟩
        (r2.dropWhile isDigitC)
  | _ =>
    if (l.takeWhile isDigitC).isEmpty then none
    else pyExpPart ⟨(digitsVal (l.takeWhile isDigitC) : Int), 1⟩ (l.dropWhile isDigitC)

/-- Python `float(s)` on the finite-decimal grammar: optional surrounding
whitespace, optional sign, decimal mantissa, optional exponent.  `none`
models a raised `ValueError`.  (`inf`/`nan` spellings and `_` separators are
outside the model, see the file header.) -/
def pyFloat (l : Str) : Option Dec :=
  match pyStrip l with
  | '+' :: r => pyFloatCore r
  | '-' :: r => (pyFloatCore r).map (fun d => ⟨-d.num, d.den⟩)
  | r => pyFloatCore r

/-- Python `int(s)` for a string: optional whitespace, optional sign, one or
more ASCII digits.  `none` models a raised `ValueError`. -/
def pyParseInt (l : Str) : Option Int :=
  match pyStrip l with
  | '+' :: ds => if ds ≠ [] ∧ ds.all isDigitC then some (digitsVal ds : Int) else none
  | '-' :: ds => if ds ≠ [] ∧ ds.all isDigitC then some (-(digitsVal ds : Int)) else none
  | ds => if ds ≠ [] ∧ ds.all isDigitC then some (digitsVal ds : Int) else none

/-- Result of a Python call at a function boundary: a returned value, or an
exception escaping the function. -/
inductive PyResult (α : Type) where
  | ok (val : α)
  | exn
deriving DecidableEq

/-- Whether a `PyResult` is a normal return. -/
def PyResult.isOk {α : Type} : PyResult α → Bool
  | .ok _ => true
  | .exn => false

/-- `AllegroScraper._parse_price` (src/allegro_scraper.py lines 32–42):
strip `zł`/`PLN`, `strip()`, comma→dot, remove spaces, `float(...)`.
The whole body is wrapped in `try/except` returning `None`, so a parse
failure is `.ok none` and no exception ever escapes. -/
def parse_price (l : Str) : PyResult (Option Dec) :=
  let s1 := pyStrip (replaceList "PLN".data "".data (replaceList "zł".data "".data l))
  let s2 := replaceList " ".data "".data (replaceList ",".data ".".data s1)
  match pyFloat s2 with
  | some d => .ok (some d)
  | none => .ok none

/-- `TikTokScraper._parse_count` (src/tiktok_scraper.py lines 69–80):
`upper().strip()`, then check for `B`/`M`/`K` anywhere in the string, remove
every occurrence of the suffix letter, `float(...)`, scale, `int(...)`.
There is no `try/except` in this method, so a `float()` failure is an
escaping `ValueError`, modelled by `.exn`. -/
def parse_count (l : Str) : PyResult Int :=
  let s := pyStrip (l.map pyCharUpper)
  if s.any (fun c => c == 'B') then
    match pyFloat (s.filter (fun c => c != 'B')) with
    | some q => .ok (pyTruncDec ⟨q.num * 1000000000, q.den⟩)
    | none => .exn
  else if s.any (fun c => c == 'M') then
    match pyFloat (s.filter (fun c => c != 'M')) with
    | some q => .ok (pyTruncDec ⟨q.num * 1000000, q.den⟩)
    | none => .exn
  else if s.any (fun c => c == 'K') then
    match pyFloat (s.filter (fun c => c != 'K')) with
    | some q => .ok (pyTruncDec ⟨q.num * 1000, q.den⟩)
    | none => .exn
  else
    match pyFloat s with
    | some q => .ok (pyTruncDec q)
    | none => .exn

/-- Single optional magnitude-suffix letter, case-insensitive. -/
def suffix_ok : Str → Bool
  | [] => true
  | [c] => c == 'K' || c == 'k' || c == 'M' || c == 'm' || c == 'B' || c == 'b'
  | _ => false

/-- The language of the regex capture `(\d+\.?\d*[KMB]?)` (with `re.IGNORECASE`)
that guards every in-repository call of `_parse_count`
(src/tiktok_scraper.py lines 53–54). -/
def count_literal (l : Str) : Bool :=
  let ip := l.takeWhile isDigitC
  let r := l.dropWhile isDigitC
  !ip.isEmpty &&
    (if r.head? = some '.' then suffix_ok ((r.drop 1).dropWhile isDigitC)
     else suffix_ok r)

/-- Values produced by `json.loads`, restricted to integer numerics (the
fields navigated by the extractors are integer counts). -/
inductive PyVal where
  | null
  | bool (b : Bool)
  | int (n : Int)
  | str (s : Str)
  | list (xs : List PyVal)
  | dict (fields : List (Str × PyVal))

/-- Python truthiness of a `PyVal` (`if x:`). -/
def pyTruthy : PyVal → Bool
  | .null => false
  | .bool b => b
  | .int n => n != 0
  | .str s => !s.isEmpty
  | .list xs => !xs.isEmpty
  | .dict fs => !fs.isEmpty

/-- Python `x.get(k, dflt)`: defined on dicts only; on any other value it
raises `AttributeError`, modelled by `none`. -/
def pyGet (v : PyVal) (k : Str) (dflt : PyVal) : Option PyVal :=
  match v with
  | .dict fields => some ((fields.lookup k).getD dflt)
  | _ => none

/-- Python `x[0]`: first element of a non-empty list, one-character string of
a non-empty string; anything else (empty list/string `IndexError`, dict
`KeyError`, other types `TypeError`) raises, modelled by `none`. -/
def pyIndex0 : PyVal → Option PyVal
  | .list (x :: _) => some x
  | .str (c :: _) => some (.str [c])
  | _ => none

/-- The measurement dict returned by either social extractor: values for the
keys `views`, `videos`, `likes` (`PyVal.null` models Python `None`). -/
structure SocialData where
  views : PyVal
  videos : PyVal
  likes : PyVal

/-- Outcome of the library probes `TikTokScraper._extract_hashtag_data`
performs on the page HTML (src/tiktok_scraper.py lines 29–67).

* `universal_data` models `soup.find_all('script',
  {'id': '__UNIVERSAL_DATA_FOR_REHYDRATION__'})` followed by
  `json.loads(script_tags[0].string)`: `none` = no such script element;
  `some none` = element present but its content is not valid JSON (or has no
  string), so `json.loads` raises; `some (some v)` = parses to `v`.
* `views_match` / `videos_match` model group 1 of
  `re.search(r'(\d+\.?\d*[KMB]?)\s+views?/videos?', html, re.IGNORECASE)`
  over the raw HTML (`none` = no match). -/
structure TikTokPage where
  universal_data : Option (Option PyVal)
  views_match : Option Str
  videos_match : Option Str

/-- Method 2 of `TikTokScraper._extract_hashtag_data` (src/tiktok_scraper.py
lines 52–63): free-text regex fallback.  A `_parse_count` exception
propagates to the enclosing `try/except`, which returns `None`. -/
def tiktok_fallback (p : TikTokPage) : Option SocialData :=
  if p.views_match.isSome || p.videos_match.isSome then
    match p.views_match with
    | some s =>
      (match parse_count s with
       | .exn => none
       | .ok n =>
         match p.videos_match with
         | some t =>
           (match parse_count t with
            | .exn => none
            | .ok m => some ⟨.int n, .int m, .null⟩)
         | none => some ⟨.int n, .null, .null⟩)
    | none =>
      match p.videos_match with
      | some t =>
        (match parse_count t with
         | .exn => none
         | .ok m => some ⟨.null, .int m, .null⟩)
      | none => none
  else none

/-- `TikTokScraper._extract_hashtag_data` (src/tiktok_scraper.py lines 29–67).
Method 1: parse the `__UNIVERSAL_DATA_FOR_REHYDRATION__` JSON blob and
navigate `__DEFAULT_SCOPE__` → `webapp.challenge-detail` →
`challengeInfo` → `stats`; if the challenge dict is truthy, return
`viewCount`/`videoCount` (defaults 0) with `likes = None`.  Any exception
(invalid JSON, `.get` on a non-dict) is caught by the enclosing
`try/except`, which returns `None` — it does not fall through to Method 2. -/
def extract_hashtag_data_tiktok (p : TikTokPage) : Option SocialData :=
  match p.universal_data with
  | some none => none
  | some (some data) =>
    (match pyGet data "__DEFAULT_SCOPE__".data (.dict []) with
     | none => none
     | some scope =>
       match pyGet scope "webapp.challenge-detail".data (.dict []) with
       | none => none
       | some challenge_info =>
         if pyTruthy challenge_info then
           match pyGet challenge_info "challengeInfo".data (.dict []) with
           | none => none
           | some ci =>
             match pyGet ci "stats".data (.dict []) with
             | none => none
             | some stats =>
               match pyGet stats "viewCount".data (.int 0) with
               | none => none
               | some vc =>
                 match pyGet stats "videoCount".data (.int 0) with
                 | none => none
                 | some vdc => some ⟨vc, vdc, .null⟩
         else tiktok_fallback p)
  | none => tiktok_fallback p

/-- Outcome of the library probes `InstagramScraper._extract_hashtag_data`
performs on the page HTML (src/instagram_scraper.py lines 33–92).

* `shared_data` models the regex search for
  `window._sharedData = ({...});</script>` followed by
  `json.loads(match.group(1))`: `none` = no match; `some none` = matched but
  group 1 is not valid JSON (`json.loads` raises); `some (some v)` = parses
  to `v`.
* `meta_post_match` models group 1 of `re.search(r'([\d,]+)\s+posts?', c,
  re.IGNORECASE)` over the `content` attribute of the
  `<meta property="og:description">` element (`none` = no such element or no
  match — both fall through to Method 3 identically).
* `html_post_match` models the same regex searched over the whole raw HTML. -/
structure InstaPage where
  shared_data : Option (Option PyVal)
  meta_post_match : Option Str
  html_post_match : Option Str

/-- Python `int(group.replace(',', ''))` used by Instagram Methods 2 and 3;
`none` models a raised `ValueError` (caught by the enclosing `try/except`). -/
def insta_count (s : Str) : Option Int := pyParseInt (s.filter (fun c => c != ','))

/-- Methods 2 and 3 of `InstagramScraper._extract_hashtag_data`
(src/instagram_scraper.py lines 62–88): meta-tag regex, then raw-HTML regex.
The extracted post count goes into `videos`; `views`/`likes` stay `None`. -/
def insta_fallback (p : InstaPage) : Option SocialData :=
  match p.meta_post_match with
  | some s =>
    (match insta_count s with
     | some n => some ⟨.null, .int n, .null⟩
     | none => none)
  | none =>
    match p.html_post_match with
    | some s =>
      (match insta_count s with
       | some n => some ⟨.null, .int n, .null⟩
       | none => none)
    | none => none

/-- `InstagramScraper._extract_hashtag_data` (src/instagram_scraper.py lines
33–92).  Method 1: parse the `window._sharedData` JSON and navigate
`entry_data` → `TagPage` → `[0]` → `graphql` → `hashtag` →
`edge_hashtag_to_media` → `count` (defaults preserved from the source); if
the `TagPage[0]` dict is truthy, return the count as `videos`.  Any
exception (invalid JSON, bad indexing, `.get` on a non-dict) is caught by
the enclosing `try/except`, which returns `None`. -/
def extract_hashtag_data_instagram (p : InstaPage) : Option SocialData :=
  match p.shared_data with
  | some none => none
  | some (some data) =>
    (match pyGet data "entry_data".data (.dict []) with
     | none => none
     | some entry_data =>
       match pyGet entry_data "TagPage".data (.list [.dict []]) with
       | none => none
       | some tag_page =>
         match pyIndex0 tag_page with
         | none => none
         | some edge_hashtag =>
           if pyTruthy edge_hashtag then
             match pyGet edge_hashtag "graphql".data (.dict []) with
             | none => none
             | some graphql =>
               match pyGet graphql "hashtag".data (.dict []) with
               | none => none
               | some hashtag_info =>
                 match pyGet hashtag_info "edge_hashtag_to_media".data (.dict []) with
                 | none => none
                 | some ehm =>
                   match pyGet ehm "count".data (.int 0) with
                   | none => none
                   | some post_count => some ⟨.null, post_count, .null⟩
           else insta_fallback p)
  | none => insta_fallback p

/-- One listing fragment sampled by `AllegroScraper.scrape_product_keyword`
(src/allegro_scraper.py lines 97–125), described by the outcome of the
probes run on it:

* `price_text` — `get_text(strip=True)` of the price `<span>` located by the
  class-regex lookup or the visible-text regex fallback (`none` = neither
  selector found an element);
* `sales_capture` — group 1 (a digit string) of
  `re.search(r'kupi[łl]o\s+(?:ponad\s+)?(\d+)\s+osób', str(listing),
  re.IGNORECASE)` (`none` = no match);
* `singular_buyer` — whether `'kupiło 1 osoba'` occurs in the lowercased
  fragment. -/
structure Listing where
  price_text : Option Str
  sales_capture : Option Str
  singular_buyer : Bool
deriving DecidableEq

/-- `AllegroScraper._extract_sales_proxy` (src/allegro_scraper.py lines
44–62): plural "kupiło N osób" pattern first (its own `try/except` maps any
failure to `None`), then the special-cased singular phrase. -/
def extract_sales_proxy (lst : Listing) : Option Int :=
  match lst.sales_capture with
  | some ds => pyParseInt ds
  | none => if lst.singular_buyer then some 1 else none

/-- Price contributed by one fragment to the `prices` list
(src/allegro_scraper.py lines 110–120): present iff a price element was
found, `_parse_price` returned a value, and that value is truthy
(`if price:` — a parsed `0.0` is dropped). -/
def price_of (lst : Listing) : Option Dec :=
  match lst.price_text with
  | some t =>
    (match parse_price t with
     | .ok (some p) => if p.num ≠ 0 then some p else none
     | .ok none => none
     | .exn => none)
  | none => none

/-- Sales proxy contributed by one fragment to the `sales_indicators` list
(src/allegro_scraper.py lines 122–125): present iff `_extract_sales_proxy`
returned a truthy value (`if sales_proxy:` — a parsed `0` is dropped). -/
def sales_of (lst : Listing) : Option Int :=
  match extract_sales_proxy lst with
  | some n => if n ≠ 0 then some n else none
  | none => none

/-- The `prices` list accumulated over the sampled fragments, in order. -/
def collect_prices (listings : List Listing) : List Dec := listings.filterMap price_of

/-- The `sales_indicators` list accumulated over the sampled fragments. -/
def collect_sales (listings : List Listing) : List Int := listings.filterMap sales_of

/-- The measurement dict returned by `scrape_product_keyword`. -/
structure MarketData where
  avg_price : Option ℚ
  offer_count : Int
  sales_proxy : Option Int
deriving DecidableEq

/-- Arithmetic mean (`statistics.mean`, exact over ℚ). -/
def meanQ (l : List ℚ) : ℚ := l.sum / (l.length : ℚ)

/-- Round-half-to-even to an integer (Python `round`). -/
def roundHalfEven (q : ℚ) : ℤ :=
  if q - ⌊q⌋ < 1 / 2 then ⌊q⌋
  else if 1 / 2 < q - ⌊q⌋ then ⌊q⌋ + 1
  else if ⌊q⌋ % 2 = 0 then ⌊q⌋ else ⌊q⌋ + 1

/-- Python `round(q, 2)` (exact over ℚ). -/
def round2 (q : ℚ) : ℚ := (roundHalfEven (100 * q) : ℚ) / 100

/-- Aggregation part of `AllegroScraper.scrape_product_keyword`
(src/allegro_scraper.py lines 97–144), taking the already-sampled top-N
listing fragments (`find_all(..., limit=config.ALLEGRO_TOP_N_LISTINGS)`).
Zero fragments → "No listings found" → `None`.  Otherwise:
`avg_price = mean(prices) if prices else None`, `offer_count =
len(listings)`, `total_sales = sum(sales_indicators) if sales_indicators
else None`, and the result dict applies `round(avg_price, 2) if avg_price
else None` (float truthiness again: a mean of exactly 0 is reported as
`None`). -/
def scrape_product_keyword (listings : List Listing) : Option MarketData :=
  if listings.isEmpty then none
  else
    let prices := collect_prices listings
    let sales := collect_sales listings
    let avg : Option ℚ := if prices.isEmpty then none else some (meanQ (prices.map Dec.toRat))
    let total_sales : Option Int := if sales.isEmpty then none else some sales.sum
    some { avg_price := (match avg with
             | some a => if a ≠ 0 then some (round2 a) else none
             | none => none),
           offer_count := (listings.length : Int),
           sales_proxy := total_sales }

/-- One row of the `social_metrics` fact table (src/db_schema.py lines
41–53).  `scraped_at` is the capture timestamp (`CURRENT_TIMESTAMP` at write
time, supplied as the `now` argument of the write operations). -/
structure SocialRow where
  date : Str
  platform_id : Nat
  hashtag_id : Nat
  views : Option Int
  videos : Option Int
  likes : Option Int
  scraped_at : Nat
deriving DecidableEq

/-- One row of the `marketplace_metrics` fact table (src/db_schema.py lines
56–66). -/
structure MarketRow where
  date : Str
  product_id : Nat
  avg_price : Option ℚ
  offer_count : Option Int
  sales_proxy : Option Int
  scraped_at : Nat
deriving DecidableEq

/-- The database state: the three dimension tables (id, unique name) and the
two fact tables.  `metric_id` surrogate keys are not modelled (no queried
behaviour depends on them). -/
structure DB where
  platforms : List (Nat × Str)
  hashtags : List (Nat × Str)
  products : List (Nat × Str)
  social_metrics : List SocialRow
  marketplace_metrics : List MarketRow
deriving DecidableEq

/-- `DatabaseManager.get_platform_id` (src/db_manager.py lines 52–60):
`SELECT platform_id FROM platforms WHERE name = ?`, `None` if no row. -/
def get_platform_id (db : DB) (name : Str) : Option Nat :=
  (db.platforms.find? (fun p => p.2 == name)).map (fun p => p.1)

/-- `DatabaseManager.get_hashtag_id` (src/db_manager.py lines 62–70). -/
def get_hashtag_id (db : DB) (tag : Str) : Option Nat :=
  (db.hashtags.find? (fun p => p.2 == tag)).map (fun p => p.1)

/-- `DatabaseManager.get_product_id` (src/db_manager.py lines 72–80). -/
def get_product_id (db : DB) (keyword : Str) : Option Nat :=
  (db.products.find? (fun p => p.2 == keyword)).map (fun p => p.1)

/-- The composite natural key `(date, platform_id, hashtag_id)` of
`social_metrics` (UNIQUE constraint, src/db_schema.py line 52). -/
def same_social_key (d : Str) (pid hid : Nat) (r : SocialRow) : Bool :=
  r.date == d && r.platform_id == pid && r.hashtag_id == hid

/-- The `INSERT ... ON CONFLICT(date, platform_id, hashtag_id) DO UPDATE SET`
statement of `insert_social_metric` (src/db_manager.py lines 100–114): if a
row with the key exists, overwrite `views`, `videos`, `likes` and refresh
`scraped_at`; otherwise append a new row. -/
def upsert_social (rows : List SocialRow) (d : Str) (pid hid : Nat)
    (vw vd lk : Option Int) (now : Nat) : List SocialRow :=
  if rows.any (same_social_key d pid hid) then
    rows.map (fun r =>
      if same_social_key d pid hid r then
        { r with views := vw, videos := vd, likes := lk, scraped_at := now }
      else r)
  else
    rows ++ [{ date := d, platform_id := pid, hashtag_id := hid,
               views := vw, videos := vd, likes := lk, scraped_at := now }]

/-- `DatabaseManager.insert_social_metric` (src/db_manager.py lines 82–119).
Resolves the platform name and hashtag text first; `if not platform_id or
not hashtag_id` (Python falsiness: `None` or id `0`) → log and return
`False` without touching the store.  Otherwise run the upsert and return
`True` (storage faults are not modelled).  `now` models
`CURRENT_TIMESTAMP`. -/
def insert_social_metric (db : DB) (now : Nat) (date_val platform_name hashtag : Str)
    (views videos likes : Option Int) : DB × Bool :=
  let platform_id := get_platform_id db platform_name
  let hashtag_id := get_hashtag_id db hashtag
  if platform_id.getD 0 = 0 ∨ hashtag_id.getD 0 = 0 then (db, false)
  else
    ({ db with social_metrics :=
        (upsert_social db.social_metrics date_val (platform_id.getD 0) (hashtag_id.getD 0)
          views videos likes now) }, true)

/-- The composite natural key `(date, product_id)` of `marketplace_metrics`
(UNIQUE constraint, src/db_schema.py line 65). -/
def same_market_key (d : Str) (pid : Nat) (r : MarketRow) : Bool :=
  r.date == d && r.product_id == pid

/-- The `INSERT ... ON CONFLICT(date, product_id) DO UPDATE SET` statement of
`insert_marketplace_metric` (src/db_manager.py lines 137–151). -/
def upsert_marketplace (rows : List MarketRow) (d : Str) (pid : Nat)
    (ap : Option ℚ) (oc sp : Option Int) (now : Nat) : List MarketRow :=
  if rows.any (same_market_key d pid) then
    rows.map (fun r =>
      if same_market_key d pid r then
        { r with avg_price := ap, offer_count := oc, sales_proxy := sp, scraped_at := now }
      else r)
  else
    rows ++ [{ date := d, product_id := pid, avg_price := ap,
               offer_count := oc, sales_proxy := sp, scraped_at := now }]

/-- `DatabaseManager.insert_marketplace_metric` (src/db_manager.py lines
121–156): resolve the product keyword (`if not product_id` → `False`,
no write), else upsert and return `True`. -/
def insert_marketplace_metric (db : DB) (now : Nat) (date_val keyword : Str)
    (avg_price : Option ℚ) (offer_count sales_proxy : Option Int) : DB × Bool :=
  let product_id := get_product_id db keyword
  if product_id.getD 0 = 0 then (db, false)
  else
    ({ db with marketplace_metrics :=
        (upsert_marketplace db.marketplace_metrics date_val (product_id.getD 0)
          avg_price offer_count sales_proxy now) }, true)

/-- Uniqueness of the `social_metrics` composite key across the stored rows
(the schema's UNIQUE constraint, an invariant of every real SQLite state). -/
def social_keys_unique (rows : List SocialRow) : Prop :=
  rows.Pairwise (fun a b =>
    ¬(a.date = b.date ∧ a.platform_id = b.platform_id ∧ a.hashtag_id = b.hashtag_id))

/-- Uniqueness of the `marketplace_metrics` composite key. -/
def market_keys_unique (rows : List MarketRow) : Prop :=
  rows.Pairwise (fun a b => ¬(a.date = b.date ∧ a.product_id = b.product_id))

/-- One row of the result set of `get_social_metrics` (src/db_manager.py
lines 158–188): the fact row joined with the platform name and hashtag
text. -/
structure SocialOut where
  date : Str
  platform : Str
  hashtag : Str
  views : Option Int
  videos : Option Int
  likes : Option Int
deriving DecidableEq

/-- Sort key realising `ORDER BY sm.date DESC, p.name, h.tag`: lexicographic
on (date reversed, platform name, hashtag text), each component compared as
SQLite TEXT (bytewise = code-point lexicographic). -/
def socialKey (a : SocialOut) : Lex ((Str)ᵒᵈ × Lex (Str × Str)) :=
  toLex (OrderDual.toDual a.date, toLex (a.platform, a.hashtag))

/-- The total order in which `get_social_metrics` returns its rows. -/
def socialLe (a b : SocialOut) : Prop := socialKey a ≤ socialKey b

instance : DecidableRel socialLe := fun a b => by unfold socialLe; infer_instance

instance : IsTotal SocialOut socialLe := ⟨fun a b => le_total (socialKey a) (socialKey b)⟩

instance : IsTrans SocialOut socialLe := ⟨fun _ _ _ h1 h2 => le_trans h1 h2⟩

/-- The optional `AND p.name = ?` filter of `get_social_metrics` (guarded by
Python truthiness `if platform_name:`, so `None` and the empty string both
disable the filter). Also reused for the optional `AND pr.keyword = ?`
filter of `get_marketplace_metrics`. -/
def pf_ok (pf : Option Str) (name : Str) : Bool :=
  match pf with
  | some [] => true
  | some n => n == name
  | none => true

/-- The unsorted result set of `get_social_metrics`: `social_metrics` rows
joined (inner join on the dimension ids) with platform name and hashtag
text, restricted to `date BETWEEN start AND end` (inclusive, TEXT
comparison) and the optional platform filter. -/
def social_filter (db : DB) (s e : Str) (pf : Option Str) : List SocialOut :=
  db.social_metrics.flatMap (fun r =>
    db.platforms.flatMap (fun p =>
      db.hashtags.filterMap (fun h =>
        if p.1 = r.platform_id ∧ h.1 = r.hashtag_id ∧ s ≤ r.date ∧ r.date ≤ e ∧
            pf_ok pf p.2 = true then
          some { date := r.date, platform := p.2, hashtag := h.2,
                 views := r.views, videos := r.videos, likes := r.likes }
        else none)))

/-- `DatabaseManager.get_social_metrics` (src/db_manager.py lines 158–188):
the filtered join, ordered by `date DESC, p.name, h.tag`. -/
def get_social_metrics (db : DB) (s e : Str) (pf : Option Str) : List SocialOut :=
  List.insertionSort socialLe (social_filter db s e pf)

/-- One row of the result set of `get_marketplace_metrics` (src/db_manager.py
lines 190–218). -/
structure MarketOut where
  date : Str
  keyword : Str
  avg_price : Option ℚ
  offer_count : Option Int
  sales_proxy : Option Int
deriving DecidableEq

/-- Sort key realising `ORDER BY mm.date DESC, pr.keyword`. -/
def marketKey (a : MarketOut) : Lex ((Str)ᵒᵈ × Str) :=
  toLex (OrderDual.toDual a.date, a.keyword)

/-- The total order in which `get_marketplace_metrics` returns its rows. -/
def marketLe (a b : MarketOut) : Prop := marketKey a ≤ marketKey b

instance : DecidableRel marketLe := fun a b => by unfold marketLe; infer_instance

instance : IsTotal MarketOut marketLe := ⟨fun a b => le_total (marketKey a) (marketKey b)⟩

instance : IsTrans MarketOut marketLe := ⟨fun _ _ _ h1 h2 => le_trans h1 h2⟩

/-- The unsorted result set of `get_marketplace_metrics`. -/
def market_filter (db : DB) (s e : Str) (kf : Option Str) : List MarketOut :=
  db.marketplace_metrics.flatMap (fun r =>
    db.products.filterMap (fun p =>
      if p.1 = r.product_id ∧ s ≤ r.date ∧ r.date ≤ e ∧ pf_ok kf p.2 = true then
        some { date := r.date, keyword := p.2, avg_price := r.avg_price,
               offer_count := r.offer_count, sales_proxy := r.sales_proxy }
      else none))

/-- `DatabaseManager.get_marketplace_metrics` (src/db_manager.py lines
190–218): the filtered join, ordered by `date DESC, pr.keyword`. -/
def get_marketplace_metrics (db : DB) (s e : Str) (kf : Option Str) : List MarketOut :=
  List.insertionSort marketLe (market_filter db s e kf)

/-- A write operation through the store's interface (the only fact-table
writers in the repository). -/
inductive WriteOp where
  | social (now : Nat) (date_val platform_name hashtag : Str) (views videos likes : Option Int)
  | market (now : Nat) (date_val keyword : Str) (avg_price : Option ℚ)
      (offer_count sales_proxy : Option Int)
deriving DecidableEq

/-- Apply one write operation to the store (ignoring the success flag). -/
def applyOp (db : DB) : WriteOp → DB
  | .social t d pn ht vw vd lk => (insert_social_metric db t d pn ht vw vd lk).1
  | .market t d kw ap oc sp => (insert_marketplace_metric db t d kw ap oc sp).1

/-- Apply a sequence of write operations. -/
def applyOps (db : DB) (ops : List WriteOp) : DB := ops.foldl applyOp db

/-- Every present measured field of a social row is non-negative. -/
def social_row_nonneg (r : SocialRow) : Bool :=
  r.views.all (fun n => decide (0 ≤ n)) && r.videos.all (fun n => decide (0 ≤ n)) &&
  r.likes.all (fun n => decide (0 ≤ n))

/-- Every present measured field of a marketplace row is non-negative. -/
def market_row_nonneg (r : MarketRow) : Bool :=
  r.avg_price.all (fun q => decide (0 ≤ q)) && r.offer_count.all (fun n => decide (0 ≤ n)) &&
  r.sales_proxy.all (fun n => decide (0 ≤ n))

/-- Every present measured field of every fact row in the store is
non-negative. -/
def db_nonneg (db : DB) : Bool :=
  db.social_metrics.all social_row_nonneg && db.marketplace_metrics.all market_row_nonneg

/-- All measured-field arguments of a write operation are non-negative. -/
def op_nonneg : WriteOp → Bool
  | .social _ _ _ _ vw vd lk =>
    vw.all (fun n => decide (0 ≤ n)) && vd.all (fun n => decide (0 ≤ n)) &&
    lk.all (fun n => decide (0 ≤ n))
  | .market _ _ _ ap oc sp =>
    ap.all (fun q => decide (0 ≤ q)) && oc.all (fun n => decide (0 ≤ n)) &&
    sp.all (fun n => decide (0 ≤ n))

/-- A concrete store fixture: one platform, one hashtag, one product, no
fact rows (mirrors the seed rows of src/db_schema.py on a smaller scale). -/
def dbC1 : DB :=
  ⟨[(1, "TikTok".data)], [(1, "desksetup".data)], [(1, "desk mat".data)], [], []⟩

section ParserLemmas

lemma toNat_of_eq {c d : Char} (h : c = d) : c.toNat = d.toNat := by rw [h]

lemma upper_fix {c : Char} (h : isDigitC c = true ∨ c = '.') : pyCharUpper c = c := by
  unfold pyCharUpper
  rcases h with h | h
  · unfold isDigitC at h
    simp only [Bool.and_eq_true, decide_eq_true_eq] at h
    rw [if_neg]; omega
  · subst h; rfl

lemma digit_dot_toNat_le {c : Char} (h : isDigitC c = true ∨ c = '.') : c.toNat ≤ 57 := by
  rcases h with h | h
  · unfold isDigitC at h
    simp only [Bool.and_eq_true, decide_eq_true_eq] at h
    omega
  · subst h; decide

lemma not_space_of_le {c : Char} (h : 46 ≤ c.toNat) : isSpaceC c = false := by
  unfold isSpaceC
  simp only [Bool.or_eq_false_iff, beq_eq_false_iff_ne, ne_eq]
  omega

lemma digit_dot_ge {c : Char} (h : isDigitC c = true ∨ c = '.') : 46 ≤ c.toNat := by
  rcases h with h | h
  · unfold isDigitC at h
    simp only [Bool.and_eq_true, decide_eq_true_eq] at h
    omega
  · subst h; decide

lemma dropWhile_eq_self_of {p : Char → Bool} {l : Str} (h : ∀ c ∈ l, p c = false) :
    l.dropWhile p = l := by
  cases l with
  | nil => rfl
  | cons c r => simp [List.dropWhile, h c (by simp)]

lemma pyStrip_eq_self {l : Str} (h : ∀ c ∈ l, isSpaceC c = false) : pyStrip l = l := by
  unfold pyStrip
  rw [dropWhile_eq_self_of h, dropWhile_eq_self_of (by intro c hc; exact h c (by simpa using hc)),
    List.reverse_reverse]

lemma takeWhile_all {p : Char → Bool} {l : Str} (h : ∀ c ∈ l, p c = true) :
    l.takeWhile p = l := by
  induction l with
  | nil => rfl
  | cons c r ih =>
    simp [List.takeWhile_cons, h c (by simp), ih (fun x hx => h x (by simp [hx]))]

lemma dropWhile_all {p : Char → Bool} {l : Str} (h : ∀ c ∈ l, p c = true) :
    l.dropWhile p = [] := by
  induction l with
  | nil => rfl
  | cons c r ih =>
    simp only [List.dropWhile_cons, h c (by simp)]
    exact ih (fun x hx => h x (by simp [hx]))

lemma takeWhile_append_stop {p : Char → Bool} {l r : Str} {x : Char}
    (h : ∀ c ∈ l, p c = true) (hx : p x = false) :
    (l ++ x :: r).takeWhile p = l := by
  induction l with
  | nil => simp [List.takeWhile_cons, hx]
  | cons c t ih =>
    simp [List.cons_append, List.takeWhile_cons, h c (by simp), ih (fun y hy => h y (by simp [hy]))]

lemma dropWhile_append_stop {p : Char → Bool} {l r : Str} {x : Char}
    (h : ∀ c ∈ l, p c = true) (hx : p x = false) :
    (l ++ x :: r).dropWhile p = x :: r := by
  induction l with
  | nil => simp [List.dropWhile_cons, hx]
  | cons c t ih =>
    simp only [List.cons_append, List.dropWhile_cons, h c (by simp)]
    exact ih (fun y hy => h y (by simp [hy]))

lemma mem_takeWhile_digit {c : Char} {l : Str} (h : c ∈ l.takeWhile isDigitC) :
    isDigitC c = true := List.mem_takeWhile_imp h

lemma dropWhile_head_false {p : Char → Bool} {l r : Str} {c : Char}
    (h : l.dropWhile p = c :: r) : p c = false := by
  induction l with
  | nil => simp at h
  | cons a t ih =>
    by_cases ha : p a
    · simp [List.dropWhile_cons, ha] at h
      exact ih h
    · simp [List.dropWhile_cons, ha] at h
      rcases h with ⟨h1, _⟩
      subst h1
      simpa using ha

end ParserLemmas

section FloatLemmas

lemma map_upper_fix {l : Str} (h : ∀ c ∈ l, isDigitC c = true ∨ c = '.') :
    l.map pyCharUpper = l := by
  induction l with
  | nil => rfl
  | cons c r ih =>
    simp [upper_fix (h c (by simp)), ih (fun x hx => h x (by simp [hx]))]

lemma any_beq_false {l : Str} {a : Char} (h : ∀ c ∈ l, c ≠ a) :
    l.any (fun c => c == a) = false := by
  rw [List.any_eq_false]
  intro c hc
  simpa using h c hc

lemma filter_ne_self {l : Str} {a : Char} (h : ∀ c ∈ l, c ≠ a) :
    l.filter (fun c => c != a) = l := by
  rw [List.filter_eq_self]
  intro c hc
  simpa using h c hc

lemma ne_of_toNat_le {c a : Char} (hc : c.toNat ≤ 57) (ha : 57 < a.toNat) : c ≠ a := by
  intro he; subst he; omega

lemma pyFloatCore_digits {ip : Str} (hne : ip ≠ []) (hd : ∀ c ∈ ip, isDigitC c = true) :
    pyFloatCore ip = some ⟨(digitsVal ip : Int), 1⟩ := by
  simp [pyFloatCore, takeWhile_all hd, dropWhile_all hd, hne, pyExpPart]

lemma pyFloatCore_mantissa {ip fp : Str} (hne : ip ≠ [])
    (hip : ∀ c ∈ ip, isDigitC c = true) (hfp : ∀ c ∈ fp, isDigitC c = true) :
    pyFloatCore (ip ++ '.' :: fp) =
      some ⟨(digitsVal ip : Int) * (10 : Int) ^ fp.length + (digitsVal fp : Int), 10 ^ fp.length⟩ := by
  have hdot : isDigitC '.' = false := by decide
  simp [pyFloatCore, takeWhile_append_stop hip hdot, dropWhile_append_stop hip hdot,
    takeWhile_all hfp, dropWhile_all hfp, hne, pyExpPart]

lemma pyFloat_of_core {l : Str} (h : ∀ c ∈ l, isDigitC c = true ∨ c = '.') :
    pyFloat l = pyFloatCore l := by
  unfold pyFloat
  rw [pyStrip_eq_self (fun c hc => not_space_of_le (digit_dot_ge (h c hc)))]
  rcases l with _ | ⟨c, rest⟩
  · rfl
  · have hge := digit_dot_ge (h c (by simp))
    have h1 : c ≠ '+' := by
      intro he; subst he
      rw [show ('+' : Char).toNat = 43 from rfl] at hge; omega
    have h2 : c ≠ '-' := by
      intro he; subst he
      rw [show ('-' : Char).toNat = 45 from rfl] at hge; omega
    split
    · rename_i r heq
      injection heq with hh _
      exact absurd hh h1
    · rename_i r heq
      injection heq with hh _
      exact absurd hh h2
    · rfl

end FloatLemmas

section CountLemmas

lemma pyExpPart_den_pos {m d : Dec} {l : Str} (hm : 0 < m.den) (h : pyExpPart m l = some d) :
    0 < d.den := by
  unfold pyExpPart at h
  split at h
  · cases h; exact hm
  · split at h
    · split at h
      · simp at h
      · split at h
        · cases h; exact hm
        · simp at h
      · split at h
        · cases h; positivity
        · simp at h
      · split at h
        · cases h; exact hm
        · simp at h
    · simp at h

lemma pyFloatCore_den_pos {l : Str} {d : Dec} (h : pyFloatCore l = some d) : 0 < d.den := by
  unfold pyFloatCore at h
  split at h
  · split at h
    · simp at h
    · exact pyExpPart_den_pos (by positivity) h
  · split at h
    · simp at h
    · exact pyExpPart_den_pos (by norm_num) h

lemma pyFloat_den_pos {l : Str} {d : Dec} (h : pyFloat l = some d) : 0 < d.den := by
  unfold pyFloat at h
  split at h
  · exact pyFloatCore_den_pos h
  · rw [Option.map_eq_some'] at h
    obtain ⟨a, ha, hd⟩ := h
    have hp := pyFloatCore_den_pos ha
    cases hd
    simpa using hp
  · exact pyFloatCore_den_pos h

lemma pyTruncDec_eq_truncQ {d : Dec} (h : 0 < d.den) : pyTruncDec d = pyTruncQ d.toRat := by
  unfold pyTruncDec pyTruncQ Dec.toRat
  rcases le_or_lt 0 d.num with hn | hn
  · rw [if_pos (by positivity), Rat.floor_intCast_div_natCast]
    exact Int.tdiv_eq_ediv hn (by positivity)
  · rw [if_neg]
    · have hcast : -((d.num : ℚ) / (d.den : ℚ)) = ((-d.num : ℤ) : ℚ) / ((d.den : ℕ) : ℚ) := by
        push_cast; ring
      rw [hcast, Rat.floor_intCast_div_natCast,
        show d.num.tdiv (d.den : ℤ) = -((-d.num).tdiv (d.den : ℤ)) by rw [Int.neg_tdiv]; ring,
        Int.tdiv_eq_ediv (by omega) (by positivity)]
    · push_neg
      apply div_neg_of_neg_of_pos
      · exact_mod_cast hn
      · exact_mod_cast h

lemma toRat_scale (n : ℤ) (m : ℕ) (k : ℤ) :
    Dec.toRat ⟨n * k, m⟩ = Dec.toRat ⟨n, m⟩ * (k : ℚ) := by
  unfold Dec.toRat
  push_cast
  ring

lemma suffix_ok_cases {r : Str} (h : suffix_ok r = true) :
    r = [] ∨ r = ['K'] ∨ r = ['k'] ∨ r = ['M'] ∨ r = ['m'] ∨ r = ['B'] ∨ r = ['b'] := by
  rcases r with _ | ⟨c, _ | ⟨e, t⟩⟩
  · exact Or.inl rfl
  · unfold suffix_ok at h
    simp only [Bool.or_eq_true, beq_iff_eq] at h
    rcases h with ((((h | h) | h) | h) | h) | h <;> subst h <;> simp
  · simp [suffix_ok] at h

end CountLemmas

section CountEval

lemma parse_count_eval_core (m : Str) (d : Dec)
    (hm : ∀ c ∈ m, isDigitC c = true ∨ c = '.')
    (hf : pyFloat m = some d) :
    parse_count m = .ok (pyTruncDec d) ∧
    (∀ sfx : Char, sfx = 'K' ∨ sfx = 'k' →
      parse_count (m ++ [sfx]) = .ok (pyTruncDec ⟨d.num * 1000, d.den⟩)) ∧
    (∀ sfx : Char, sfx = 'M' ∨ sfx = 'm' →
      parse_count (m ++ [sfx]) = .ok (pyTruncDec ⟨d.num * 1000000, d.den⟩)) ∧
    (∀ sfx : Char, sfx = 'B' ∨ sfx = 'b' →
      parse_count (m ++ [sfx]) = .ok (pyTruncDec ⟨d.num * 1000000000, d.den⟩)) := by
  have hle : ∀ c ∈ m, c.toNat ≤ 57 := fun c hc => digit_dot_toNat_le (hm c hc)
  have hup : m.map pyCharUpper = m := map_upper_fix hm
  have hnospace : ∀ c ∈ m, isSpaceC c = false :=
    fun c hc => not_space_of_le (digit_dot_ge (hm c hc))
  have hnB : ∀ c ∈ m, c ≠ 'B' :=
    fun c hc => ne_of_toNat_le (hle c hc) (by decide)
  have hnM : ∀ c ∈ m, c ≠ 'M' :=
    fun c hc => ne_of_toNat_le (hle c hc) (by decide)
  have hnK : ∀ c ∈ m, c ≠ 'K' :=
    fun c hc => ne_of_toNat_le (hle c hc) (by decide)
  have hs0 : pyStrip (m.map pyCharUpper) = m := by rw [hup]; exact pyStrip_eq_self hnospace
  refine ⟨?_, ?_, ?_, ?_⟩
  · simp [parse_count, hs0, any_beq_false hnB, any_beq_false hnM, any_beq_false hnK, hf]
  · intro sfx hsfx
    have hupS : pyCharUpper sfx = 'K' := by rcases hsfx with rfl | rfl <;> decide
    have hmapS : (m ++ [sfx]).map pyCharUpper = m ++ ['K'] := by
      rw [List.map_append, hup]; simp [hupS]
    have hs : pyStrip ((m ++ [sfx]).map pyCharUpper) = m ++ ['K'] := by
      rw [hmapS]
      refine pyStrip_eq_self ?_
      intro c hc
      rcases List.mem_append.mp hc with hc | hc
      · exact hnospace c hc
      · simp at hc; subst hc; decide
    have hanyB : (m ++ ['K']).any (fun c => c == 'B') = false := by
      refine any_beq_false ?_
      intro c hc
      rcases List.mem_append.mp hc with hc | hc
      · exact hnB c hc
      · simp at hc; subst hc; decide
    have hanyM : (m ++ ['K']).any (fun c => c == 'M') = false := by
      refine any_beq_false ?_
      intro c hc
      rcases List.mem_append.mp hc with hc | hc
      · exact hnM c hc
      · simp at hc; subst hc; decide
    have hanyK : (m ++ ['K']).any (fun c => c == 'K') = true := by simp
    have hfil : (m ++ ['K']).filter (fun c => c != 'K') = m := by
      rw [List.filter_append, filter_ne_self hnK]; simp
    simp only [parse_count]
    rw [hs, hanyB, hanyM, hanyK, hfil, hf]
    simp
  · intro sfx hsfx
    have hupS : pyCharUpper sfx = 'M' := by rcases hsfx with rfl | rfl <;> decide
    have hmapS : (m ++ [sfx]).map pyCharUpper = m ++ ['M'] := by
      rw [List.map_append, hup]; simp [hupS]
    have hs : pyStrip ((m ++ [sfx]).map pyCharUpper) = m ++ ['M'] := by
      rw [hmapS]
      refine pyStrip_eq_self ?_
      intro c hc
      rcases List.mem_append.mp hc with hc | hc
      · exact hnospace c hc
      · simp at hc; subst hc; decide
    have hanyB : (m ++ ['M']).any (fun c => c == 'B') = false := by
      refine any_beq_false ?_
      intro c hc
      rcases List.mem_append.mp hc with hc | hc
      · exact hnB c hc
      · simp at hc; subst hc; decide
    have hanyM : (m ++ ['M']).any (fun c => c == 'M') = true := by simp
    have hfil : (m ++ ['M']).filter (fun c => c != 'M') = m := by
      rw [List.filter_append, filter_ne_self hnM]; simp
    simp only [parse_count]
    rw [hs, hanyB, hanyM, hfil, hf]
    simp
  · intro sfx hsfx
    have hupS : pyCharUpper sfx = 'B' := by rcases hsfx with rfl | rfl <;> decide
    have hmapS : (m ++ [sfx]).map pyCharUpper = m ++ ['B'] := by
      rw [List.map_append, hup]; simp [hupS]
    have hs : pyStrip ((m ++ [sfx]).map pyCharUpper) = m ++ ['B'] := by
      rw [hmapS]
      refine pyStrip_eq_self ?_
      intro c hc
      rcases List.mem_append.mp hc with hc | hc
      · exact hnospace c hc
      · simp at hc; subst hc; decide
    have hanyB : (m ++ ['B']).any (fun c => c == 'B') = true := by simp
    have hfil : (m ++ ['B']).filter (fun c => c != 'B') = m := by
      rw [List.filter_append, filter_ne_self hnB]; simp
    simp only [parse_count]
    rw [hs, hanyB, hfil, hf]
    simp

end CountEval

section CountLiteral

lemma pyFloat_digits {ip : Str} (hne : ip ≠ []) (hd : ∀ c ∈ ip, isDigitC c = true) :
    pyFloat ip = some ⟨(digitsVal ip : Int), 1⟩ := by
  rw [pyFloat_of_core (fun c hc => Or.inl (hd c hc))]
  exact pyFloatCore_digits hne hd

lemma pyFloat_mantissa {ip fp : Str} (hne : ip ≠ [])
    (hip : ∀ c ∈ ip, isDigitC c = true) (hfp : ∀ c ∈ fp, isDigitC c = true) :
    pyFloat (ip ++ '.' :: fp) =
      some ⟨(digitsVal ip : Int) * (10 : Int) ^ fp.length + (digitsVal fp : Int), 10 ^ fp.length⟩ := by
  rw [pyFloat_of_core]
  · exact pyFloatCore_mantissa hne hip hfp
  · intro c hc
    rcases List.mem_append.mp hc with hc | hc
    · exact Or.inl (hip c hc)
    · rcases List.mem_cons.mp hc with hc | hc
      · exact Or.inr hc
      · exact Or.inl (hfp c hc)

lemma digit_dot_of_mantissa {ip fp : Str} (hip : ∀ c ∈ ip, isDigitC c = true)
    (hfp : ∀ c ∈ fp, isDigitC c = true) :
    ∀ c ∈ ip ++ '.' :: fp, isDigitC c = true ∨ c = '.' := by
  intro c hc
  rcases List.mem_append.mp hc with hc | hc
  · exact Or.inl (hip c hc)
  · rcases List.mem_cons.mp hc with hc | hc
    · exact Or.inr hc
    · exact Or.inl (hfp c hc)

lemma parse_count_ok_of_count_literal {l : Str} (h : count_literal l = true) :
    (parse_count l).isOk = true := by
  have hsplit : List.takeWhile isDigitC l ++ List.dropWhile isDigitC l = l :=
    List.takeWhile_append_dropWhile isDigitC l
  have hipd : ∀ c ∈ l.takeWhile isDigitC, isDigitC c = true :=
    fun c hc => List.mem_takeWhile_imp hc
  unfold count_literal at h
  rw [Bool.and_eq_true] at h
  obtain ⟨hne', hrest⟩ := h
  have hne : l.takeWhile isDigitC ≠ [] := by simpa using hne'
  generalize hIP : l.takeWhile isDigitC = ip at hipd hne hsplit
  rcases hr : l.dropWhile isDigitC with _ | ⟨c, r2⟩
  · rw [hr] at hsplit
    have hl : l = ip := by simpa using hsplit.symm
    have hres := (parse_count_eval_core ip _
      (fun c hc => Or.inl (hipd c hc)) (pyFloat_digits hne hipd)).1
    rw [hl, hres]
    rfl
  · rw [hr] at hsplit hrest
    by_cases hcdot : c = '.'
    · subst hcdot
      simp only [List.head?_cons, Option.some.injEq, if_pos rfl, List.drop_one,
        List.tail_cons] at hrest
      have hfpd : ∀ x ∈ r2.takeWhile isDigitC, isDigitC x = true :=
        fun x hx => List.mem_takeWhile_imp hx
      have hsplit2 : List.takeWhile isDigitC r2 ++ List.dropWhile isDigitC r2 = r2 :=
        List.takeWhile_append_dropWhile isDigitC r2
      generalize hFP : r2.takeWhile isDigitC = fp at hfpd hsplit2
      have hmain := parse_count_eval_core (ip ++ '.' :: fp) _
        (digit_dot_of_mantissa hipd hfpd) (pyFloat_mantissa hne hipd hfpd)
      rcases suffix_ok_cases hrest with h3 | h3 | h3 | h3 | h3 | h3 | h3 <;>
          rw [h3] at hsplit2
      · have hfr : fp = r2 := by simpa using hsplit2
        have hl : l = ip ++ '.' :: fp := by rw [hfr]; exact hsplit.symm
        rw [hl, hmain.1]
        rfl
      · have hl : l = (ip ++ '.' :: fp) ++ ['K'] := by
          rw [← hsplit, ← hsplit2]; simp
        rw [hl, hmain.2.1 'K' (Or.inl rfl)]
        rfl
      · have hl : l = (ip ++ '.' :: fp) ++ ['k'] := by
          rw [← hsplit, ← hsplit2]; simp
        rw [hl, hmain.2.1 'k' (Or.inr rfl)]
        rfl
      · have hl : l = (ip ++ '.' :: fp) ++ ['M'] := by
          rw [← hsplit, ← hsplit2]; simp
        rw [hl, hmain.2.2.1 'M' (Or.inl rfl)]
        rfl
      · have hl : l = (ip ++ '.' :: fp) ++ ['m'] := by
          rw [← hsplit, ← hsplit2]; simp
        rw [hl, hmain.2.2.1 'm' (Or.inr rfl)]
        rfl
      · have hl : l = (ip ++ '.' :: fp) ++ ['B'] := by
          rw [← hsplit, ← hsplit2]; simp
        rw [hl, hmain.2.2.2 'B' (Or.inl rfl)]
        rfl
      · have hl : l = (ip ++ '.' :: fp) ++ ['b'] := by
          rw [← hsplit, ← hsplit2]; simp
        rw [hl, hmain.2.2.2 'b' (Or.inr rfl)]
        rfl
    · rw [List.head?_cons, if_neg (by simpa using hcdot)] at hrest
      have hmain := parse_count_eval_core ip _
        (fun x hx => Or.inl (hipd x hx)) (pyFloat_digits hne hipd)
      rcases suffix_ok_cases hrest with h3 | h3 | h3 | h3 | h3 | h3 | h3
      · exact absurd h3 (by simp)
      · injection h3 with hc3 hr3
        subst hc3; subst hr3
        have hl : l = ip ++ ['K'] := hsplit.symm
        rw [hl, hmain.2.1 'K' (Or.inl rfl)]
        rfl
      · injection h3 with hc3 hr3
        subst hc3; subst hr3
        have hl : l = ip ++ ['k'] := hsplit.symm
        rw [hl, hmain.2.1 'k' (Or.inr rfl)]
        rfl
      · injection h3 with hc3 hr3
        subst hc3; subst hr3
        have hl : l = ip ++ ['M'] := hsplit.symm
        rw [hl, hmain.2.2.1 'M' (Or.inl rfl)]
        rfl
      · injection h3 with hc3 hr3
        subst hc3; subst hr3
        have hl : l = ip ++ ['m'] := hsplit.symm
        rw [hl, hmain.2.2.1 'm' (Or.inr rfl)]
        rfl
      · injection h3 with hc3 hr3
        subst hc3; subst hr3
        have hl : l = ip ++ ['B'] := hsplit.symm
        rw [hl, hmain.2.2.2 'B' (Or.inl rfl)]
        rfl
      · injection h3 with hc3 hr3
        subst hc3; subst hr3
        have hl : l = ip ++ ['b'] := hsplit.symm
        rw [hl, hmain.2.2.2 'b' (Or.inr rfl)]
        rfl

end CountLiteral

/-- C6: `_parse_price` strips currency markers and whitespace, converts the
decimal comma, and parses the result: `"129,99 zł"` ↦ 129.99,
`"1 299,00 zł"` ↦ 1299.00, and `"not a price"` fails (returns `None`). -/
theorem C6_parse_decimal_price :
    (∃ d : Dec, parse_price "129,99 zł".data = .ok (some d) ∧ d.toRat = 12999 / 100) ∧
    (∃ d : Dec, parse_price "1 299,00 zł".data = .ok (some d) ∧ d.toRat = 1299) ∧
    parse_price "not a price".data = .ok none := by
  refine ⟨⟨⟨12999, 100⟩, by decide, by norm_num [Dec.toRat]⟩,
    ⟨⟨129900, 100⟩, by decide, by norm_num [Dec.toRat]⟩, by decide⟩

/-- C7: `_parse_count` multiplies the numeric mantissa by the factor of the
(case-insensitive) `K`/`M`/`B` suffix — 1 when absent — and truncates to an
integer; in particular `"1.2M"` ↦ 1200000, `"45.3K"` ↦ 45300, `"7"` ↦ 7. -/
theorem C7_parse_magnitude_count :
    (parse_count "1.2M".data = .ok 1200000 ∧ parse_count "45.3K".data = .ok 45300 ∧
      parse_count "7".data = .ok 7) ∧
    (∀ (m : Str) (d : Dec), (∀ c ∈ m, isDigitC c = true ∨ c = '.') → pyFloat m = some d →
      parse_count m = .ok (pyTruncQ d.toRat) ∧
      (∀ sfx, sfx = 'K' ∨ sfx = 'k' →
        parse_count (m ++ [sfx]) = .ok (pyTruncQ (d.toRat * 1000))) ∧
      (∀ sfx, sfx = 'M' ∨ sfx = 'm' →
        parse_count (m ++ [sfx]) = .ok (pyTruncQ (d.toRat * 1000000))) ∧
      (∀ sfx, sfx = 'B' ∨ sfx = 'b' →
        parse_count (m ++ [sfx]) = .ok (pyTruncQ (d.toRat * 1000000000)))) := by
  constructor
  · exact ⟨by decide, by decide, by decide⟩
  · intro m d hm hf
    have hden := pyFloat_den_pos hf
    have hcore := parse_count_eval_core m d hm hf
    refine ⟨?_, ?_, ?_, ?_⟩
    · rw [hcore.1, pyTruncDec_eq_truncQ hden]
    · intro sfx hsfx
      rw [hcore.2.1 sfx hsfx,
        pyTruncDec_eq_truncQ (show (0 : ℕ) < (⟨d.num * 1000, d.den⟩ : Dec).den from hden),
        toRat_scale]
      norm_num
    · intro sfx hsfx
      rw [hcore.2.2.1 sfx hsfx,
        pyTruncDec_eq_truncQ (show (0 : ℕ) < (⟨d.num * 1000000, d.den⟩ : Dec).den from hden),
        toRat_scale]
      norm_num
    · intro sfx hsfx
      rw [hcore.2.2.2 sfx hsfx,
        pyTruncDec_eq_truncQ (show (0 : ℕ) < (⟨d.num * 1000000000, d.den⟩ : Dec).den from hden),
        toRat_scale]
      norm_num

/-- Witness for C7 at a concrete input: `"1.2" ++ "M"`. -/
theorem C7_parse_magnitude_count_witness :
    parse_count ("1.2".data ++ ['M']) = .ok (pyTruncQ (Dec.toRat ⟨12, 10⟩ * 1000000)) :=
  (C7_parse_magnitude_count.2 "1.2".data ⟨12, 10⟩ (by decide) (by decide)).2.2.1 'M' (Or.inl rfl)

/-- C5 (counterexample): `_parse_count` is not total — on the input `"abc"`
(whose upper-casing contains a `B`, so `float("AC")` is attempted) it raises
`ValueError` past its boundary instead of returning "no value". -/
theorem C5_counterexample_parse_count_raises : parse_count "abc".data = .exn := by decide

/-- C5 (amended): the decimal-price parser is total — for every input it
returns a value or `None` and never raises; the magnitude-count parser never
raises on any input matching the guard pattern `(\d+\.?\d*[KMB]?)` of its
in-repository call sites (but can raise on other inputs). -/
theorem C5_normalizer_totality_amended :
    (∀ l : Str, (parse_price l).isOk = true) ∧
    (∀ l : Str, count_literal l = true → (parse_count l).isOk = true) := by
  constructor
  · intro l
    simp only [parse_price]
    split <;> rfl
  · exact fun _ h => parse_count_ok_of_count_literal h

/-- Witness for C5 at a concrete input accepted by the call-site pattern. -/
theorem C5_normalizer_totality_witness : (parse_count "45.3K".data).isOk = true :=
  C5_normalizer_totality_amended.2 "45.3K".data (by decide)

/-- C3 (counterexample): on a TikTok page whose structured-data anchor is
present but whose content is not valid JSON (e.g.
`<script id="__UNIVERSAL_DATA_FOR_REHYDRATION__">not json</script>` in a page
also containing the text `100 views`), the extractor returns no-measurement
(`None`) even though the free-text strategy would produce a value — control
does not pass to the next strategy on a JSON parse failure. -/
theorem C3_counterexample_json_failure :
    extract_hashtag_data_tiktok ⟨some none, some "100".data, none⟩ = none ∧
    tiktok_fallback ⟨some none, some "100".data, none⟩ =
      some ⟨.int 100, .null, .null⟩ :=
  ⟨rfl, rfl⟩

/-- C3 (amended): for both hashtag extractors, control passes to the next
strategy when the structured-data anchor is absent or when the parsed
structure's navigation path ends in a falsy value; when the anchor is present
but its content does not parse as JSON, the extractor returns no-measurement
to the caller (without raising) instead of trying later strategies; for
content matching only the free-text strategy, the extractor returns exactly
the value that strategy produces. -/
theorem C3_strategy_fallback_amended :
    (∀ p : TikTokPage, p.universal_data = none →
      extract_hashtag_data_tiktok p = tiktok_fallback p) ∧
    (∀ (p : TikTokPage) (d scope ci : PyVal), p.universal_data = some (some d) →
      pyGet d "__DEFAULT_SCOPE__".data (.dict []) = some scope →
      pyGet scope "webapp.challenge-detail".data (.dict []) = some ci →
      pyTruthy ci = false →
      extract_hashtag_data_tiktok p = tiktok_fallback p) ∧
    (∀ p : TikTokPage, p.universal_data = some none →
      extract_hashtag_data_tiktok p = none) ∧
    (∀ (p : TikTokPage) (s : Str) (n : Int), p.universal_data = none →
      p.views_match = some s → p.videos_match = none → parse_count s = .ok n →
      extract_hashtag_data_tiktok p = some ⟨.int n, .null, .null⟩) ∧
    (∀ p : InstaPage, p.shared_data = none →
      extract_hashtag_data_instagram p = insta_fallback p) ∧
    (∀ (p : InstaPage) (d entry tagpage edge : PyVal), p.shared_data = some (some d) →
      pyGet d "entry_data".data (.dict []) = some entry →
      pyGet entry "TagPage".data (.list [.dict []]) = some tagpage →
      pyIndex0 tagpage = some edge →
      pyTruthy edge = false →
      extract_hashtag_data_instagram p = insta_fallback p) ∧
    (∀ p : InstaPage, p.shared_data = some none →
      extract_hashtag_data_instagram p = none) ∧
    (∀ (p : InstaPage) (s : Str) (n : Int), p.shared_data = none →
      p.meta_post_match = none → p.html_post_match = some s → insta_count s = some n →
      extract_hashtag_data_instagram p = some ⟨.null, .int n, .null⟩) := by
  refine ⟨?_, ?_, ?_, ?_, ?_, ?_, ?_, ?_⟩
  · intro p h
    simp [extract_hashtag_data_tiktok, h]
  · intro p d scope ci h h1 h2 h3
    simp [extract_hashtag_data_tiktok, h, h1, h2, h3]
  · intro p h
    simp [extract_hashtag_data_tiktok, h]
  · intro p s n h h1 h2 h3
    simp [extract_hashtag_data_tiktok, tiktok_fallback, h, h1, h2, h3]
  · intro p h
    simp [extract_hashtag_data_instagram, h]
  · intro p d entry tagpage edge h h1 h2 h3 h4
    simp [extract_hashtag_data_instagram, h, h1, h2, h3, h4]
  · intro p h
    simp [extract_hashtag_data_instagram, h]
  · intro p s n h h1 h2 h3
    simp [extract_hashtag_data_instagram, insta_fallback, h, h1, h2, h3]

/-- Witness for C3 at a concrete input: a page with no structured-data
anchor and the free text `100 views`. -/
theorem C3_strategy_fallback_witness :
    extract_hashtag_data_tiktok ⟨none, some "100".data, none⟩ =
      some ⟨.int 100, .null, .null⟩ :=
  C3_strategy_fallback_amended.2.2.2.1 ⟨none, some "100".data, none⟩ "100".data 100
    rfl rfl rfl (by decide)

/-- C10: whenever extraction succeeds, the Instagram extractor's measurement
has `views` and `likes` absent (the post count goes into `videos`), and the
TikTok extractor's measurement has `likes` absent. -/
theorem C10_extractor_absent_fields :
    (∀ (p : InstaPage) (m : SocialData), extract_hashtag_data_instagram p = some m →
      m.views = PyVal.null ∧ m.likes = PyVal.null) ∧
    (∀ (p : TikTokPage) (m : SocialData), extract_hashtag_data_tiktok p = some m →
      m.likes = PyVal.null) := by
  constructor
  · intro p m h
    unfold extract_hashtag_data_instagram insta_fallback at h
    repeat' split at h
    all_goals first
      | (rw [← Option.some_inj.mp h]; exact ⟨rfl, rfl⟩)
      | (simp at h)
  · intro p m h
    unfold extract_hashtag_data_tiktok tiktok_fallback at h
    repeat' split at h
    all_goals first
      | (rw [← Option.some_inj.mp h])
      | (rw [← h])
      | (simp at h)

/-- Witness for C10 at a concrete input: an Instagram page matching only the
raw-HTML post-count regex. -/
theorem C10_extractor_absent_fields_witness :
    (⟨PyVal.null, PyVal.int 5, PyVal.null⟩ : SocialData).views = PyVal.null ∧
    (⟨PyVal.null, PyVal.int 5, PyVal.null⟩ : SocialData).likes = PyVal.null :=
  C10_extractor_absent_fields.1 ⟨none, none, some "5".data⟩ ⟨.null, .int 5, .null⟩ rfl

/-- C4 (counterexample): a single sampled fragment whose price text
`"0,00 zł"` parses successfully to the value 0.0.  The claim requires
`avg_price` to equal the mean of the parsed prices (0.00, present); the
code's `if price:` truthiness check drops the parsed zero, so the produced
measurement has `avg_price = None` (with `offer_count = 1`). -/
theorem C4_counterexample_zero_price :
    parse_price "0,00 zł".data = .ok (some ⟨0, 100⟩) ∧
    scrape_product_keyword [⟨some "0,00 zł".data, none, false⟩] = some ⟨none, 1, none⟩ :=
  ⟨by decide, by decide⟩

/-- C4 (amended): for a non-empty sample, the measurement is produced with
`offer_count` equal to the number of sampled fragments (even when nothing
else parses); `avg_price` equal to `round2` of the mean of the parsed
*truthy* (nonzero) prices, absent when there is no such price or when that
mean is zero; and `sales_proxy` equal to the sum of the parsed *truthy*
(nonzero) sales proxies, absent when there is none. -/
theorem C4_marketplace_aggregation_amended :
    ∀ listings : List Listing, listings ≠ [] →
      ∃ md : MarketData, scrape_product_keyword listings = some md ∧
        md.offer_count = listings.length ∧
        md.avg_price =
          (if collect_prices listings = [] then none
           else if meanQ ((collect_prices listings).map Dec.toRat) = 0 then none
           else some (round2 (meanQ ((collect_prices listings).map Dec.toRat)))) ∧
        md.sales_proxy =
          (if collect_sales listings = [] then none else some (collect_sales listings).sum) := by
  intro ls h
  have h1 : ls.isEmpty = false := by simpa using h
  have hmain : scrape_product_keyword ls = some
      ⟨(if collect_prices ls = [] then none
        else if meanQ ((collect_prices ls).map Dec.toRat) = 0 then none
        else some (round2 (meanQ ((collect_prices ls).map Dec.toRat)))),
       (ls.length : Int),
       (if collect_sales ls = [] then none else some (collect_sales ls).sum)⟩ := by
    simp only [scrape_product_keyword, h1, Bool.false_eq_true, if_false, List.isEmpty_iff]
    by_cases hp : collect_prices ls = [] <;> by_cases hs : collect_sales ls = [] <;>
      by_cases hm : meanQ ((collect_prices ls).map Dec.toRat) = 0 <;>
      simp [hp, hs, hm]
  exact ⟨_, hmain, rfl, rfl, rfl⟩

/-- Witness for C4 at a concrete input: one fragment with price
`"129,99 zł"` and a `kupiło 3 osoby` capture. -/
theorem C4_marketplace_aggregation_witness :
    ∃ md : MarketData,
      scrape_product_keyword [⟨some "129,99 zł".data, some "3".data, false⟩] = some md ∧
      md.offer_count = ([⟨some "129,99 zł".data, some "3".data, false⟩] : List Listing).length ∧
      md.avg_price =
        (if collect_prices [⟨some "129,99 zł".data, some "3".data, false⟩] = [] then none
         else if meanQ ((collect_prices [⟨some "129,99 zł".data, some "3".data, false⟩]).map
            Dec.toRat) = 0 then none
         else some (round2 (meanQ ((collect_prices
            [⟨some "129,99 zł".data, some "3".data, false⟩]).map Dec.toRat)))) ∧
      md.sales_proxy =
        (if collect_sales [⟨some "129,99 zł".data, some "3".data, false⟩] = [] then none
         else some (collect_sales [⟨some "129,99 zł".data, some "3".data, false⟩]).sum) :=
  C4_marketplace_aggregation_amended [⟨some "129,99 zł".data, some "3".data, false⟩] (by decide)

/-- C2: a write whose dimension name does not resolve is rejected: the call
returns `False` and the store state is returned unchanged — no fact row is
created or mutated. -/
theorem C2_dimension_rejection :
    (∀ (db : DB) (now : Nat) (d pn ht : Str) (vw vd lk : Option Int),
      get_platform_id db pn = none ∨ get_hashtag_id db ht = none →
      insert_social_metric db now d pn ht vw vd lk = (db, false)) ∧
    (∀ (db : DB) (now : Nat) (d kw : Str) (ap : Option ℚ) (oc sp : Option Int),
      get_product_id db kw = none →
      insert_marketplace_metric db now d kw ap oc sp = (db, false)) := by
  constructor
  · intro db now d pn ht vw vd lk h
    rcases h with h | h <;> simp [insert_social_metric, h]
  · intro db now d kw ap oc sp h
    simp [insert_marketplace_metric, h]

/-- Witness for C2 at a concrete input: an empty store, where no platform
name resolves. -/
theorem C2_dimension_rejection_witness :
    insert_social_metric ⟨[], [], [], [], []⟩ 0 "2025-01-01".data "TikTok".data
      "desksetup".data none none none = (⟨[], [], [], [], []⟩, false) :=
  C2_dimension_rejection.1 ⟨[], [], [], [], []⟩ 0 "2025-01-01".data "TikTok".data
    "desksetup".data none none none (Or.inl rfl)

section NonnegLemmas

lemma upsert_social_nonneg {rows : List SocialRow} {d : Str} {pid hid : Nat}
    {vw vd lk : Option Int} {now : Nat}
    (hr : rows.all social_row_nonneg = true)
    (h1 : vw.all (fun n => decide (0 ≤ n)) = true)
    (h2 : vd.all (fun n => decide (0 ≤ n)) = true)
    (h3 : lk.all (fun n => decide (0 ≤ n)) = true) :
    (upsert_social rows d pid hid vw vd lk now).all social_row_nonneg = true := by
  unfold upsert_social
  split
  · rw [List.all_eq_true] at hr ⊢
    intro r hrm
    rw [List.mem_map] at hrm
    obtain ⟨r0, hr0, rfl⟩ := hrm
    split
    · simp [social_row_nonneg, h1, h2, h3]
    · exact hr r0 hr0
  · rw [List.all_append]
    rw [hr]
    simp [social_row_nonneg, h1, h2, h3]

lemma upsert_marketplace_nonneg {rows : List MarketRow} {d : Str} {pid : Nat}
    {ap : Option ℚ} {oc sp : Option Int} {now : Nat}
    (hr : rows.all market_row_nonneg = true)
    (h1 : ap.all (fun q => decide (0 ≤ q)) = true)
    (h2 : oc.all (fun n => decide (0 ≤ n)) = true)
    (h3 : sp.all (fun n => decide (0 ≤ n)) = true) :
    (upsert_marketplace rows d pid ap oc sp now).all market_row_nonneg = true := by
  unfold upsert_marketplace
  split
  · rw [List.all_eq_true] at hr ⊢
    intro r hrm
    rw [List.mem_map] at hrm
    obtain ⟨r0, hr0, rfl⟩ := hrm
    split
    · simp [market_row_nonneg, h1, h2, h3]
    · exact hr r0 hr0
  · rw [List.all_append]
    rw [hr]
    simp [market_row_nonneg, h1, h2, h3]

lemma applyOp_nonneg {db : DB} {op : WriteOp} (hdb : db_nonneg db = true)
    (hop : op_nonneg op = true) : db_nonneg (applyOp db op) = true := by
  rw [db_nonneg, Bool.and_eq_true] at hdb
  obtain ⟨hds, hdm⟩ := hdb
  cases op with
  | social t d pn ht vw vd lk =>
    rw [op_nonneg, Bool.and_eq_true, Bool.and_eq_true] at hop
    obtain ⟨⟨h1, h2⟩, h3⟩ := hop
    by_cases hc : (get_platform_id db pn).getD 0 = 0 ∨ (get_hashtag_id db ht).getD 0 = 0
    · simp only [applyOp, insert_social_metric]
      rw [if_pos hc]
      simp [db_nonneg, hds, hdm]
    · simp only [applyOp, insert_social_metric]
      rw [if_neg hc]
      simp [db_nonneg, hdm, upsert_social_nonneg hds h1 h2 h3]
  | market t d kw ap oc sp =>
    rw [op_nonneg, Bool.and_eq_true, Bool.and_eq_true] at hop
    obtain ⟨⟨h1, h2⟩, h3⟩ := hop
    by_cases hc : (get_product_id db kw).getD 0 = 0
    · simp only [applyOp, insert_marketplace_metric]
      rw [if_pos hc]
      simp [db_nonneg, hds, hdm]
    · simp only [applyOp, insert_marketplace_metric]
      rw [if_neg hc]
      simp [db_nonneg, hds, upsert_marketplace_nonneg hdm h1 h2 h3]

end NonnegLemmas

/-- C8 (counterexample): the store does not enforce non-negativity — from a
non-negative state, a single `insert_social_metric` call carrying
`views = -1` succeeds and leaves a present negative field in the store. -/
theorem C8_counterexample_negative_field :
    db_nonneg ⟨[(1, "TikTok".data)], [(1, "desksetup".data)], [], [], []⟩ = true ∧
    db_nonneg (applyOp ⟨[(1, "TikTok".data)], [(1, "desksetup".data)], [], [], []⟩
      (.social 0 "2025-01-02".data "TikTok".data "desksetup".data (some (-1)) none none)) =
      false :=
  ⟨by decide, by decide⟩

/-- C8 (amended): non-negativity is preserved by the write operations only
conditionally — if the store's present fields are non-negative and every
write in a sequence carries only non-negative field values (as the
repository's extractors do), then every present field in the resulting store
is non-negative.  The store itself imposes no check (see the
counterexample). -/
theorem C8_nonneg_invariant_amended :
    ∀ (ops : List WriteOp) (db : DB), db_nonneg db = true →
      (∀ op ∈ ops, op_nonneg op = true) → db_nonneg (applyOps db ops) = true := by
  intro ops
  induction ops with
  | nil => intro db hdb _; exact hdb
  | cons op rest ih =>
    intro db hdb hops
    rw [applyOps, List.foldl_cons]
    exact ih (applyOp db op) (applyOp_nonneg hdb (hops op (by simp)))
      (fun o ho => hops o (by simp [ho]))

/-- Witness for C8 at a concrete input: two non-negative writes into a
seeded store. -/
theorem C8_nonneg_invariant_witness :
    db_nonneg (applyOps ⟨[(1, "TikTok".data)], [(1, "desksetup".data)],
      [(1, "desk mat".data)], [], []⟩
      [.social 1 "2025-01-01".data "TikTok".data "desksetup".data (some 5) (some 2) none,
       .market 2 "2025-01-01".data "desk mat".data (some 10) (some 3) (some 1)]) = true :=
  C8_nonneg_invariant_amended _ _ (by decide) (by decide)

section UpsertLemmas

lemma same_social_key_iff {d : Str} {pid hid : Nat} {r : SocialRow} :
    same_social_key d pid hid r = true ↔
      r.date = d ∧ r.platform_id = pid ∧ r.hashtag_id = hid := by
  simp [same_social_key, and_assoc]

lemma same_market_key_iff {d : Str} {pid : Nat} {r : MarketRow} :
    same_market_key d pid r = true ↔ r.date = d ∧ r.product_id = pid := by
  simp [same_market_key]

lemma filter_map_upsert_social {rows : List SocialRow} {d : Str} {pid hid : Nat}
    {vw vd lk : Option Int} {now : Nat}
    (hu : social_keys_unique rows) (hany : rows.any (same_social_key d pid hid) = true) :
    (rows.map (fun r => if same_social_key d pid hid r then
        { r with views := vw, videos := vd, likes := lk, scraped_at := now } else r)).filter
      (same_social_key d pid hid) = [⟨d, pid, hid, vw, vd, lk, now⟩] := by
  induction rows with
  | nil => simp at hany
  | cons r rs ih =>
    rw [social_keys_unique, List.pairwise_cons] at hu
    obtain ⟨hu1, hu2⟩ := hu
    by_cases hr : same_social_key d pid hid r = true
    · obtain ⟨hk1, hk2, hk3⟩ := same_social_key_iff.mp hr
      have hupd : same_social_key d pid hid
          { r with views := vw, videos := vd, likes := lk, scraped_at := now } = true := by
        rw [same_social_key_iff]
        exact ⟨hk1, hk2, hk3⟩
      have hrs : ∀ x ∈ rs, same_social_key d pid hid x = false := by
        intro x hx
        rw [Bool.eq_false_iff, Ne, same_social_key_iff]
        rintro ⟨hx1, hx2, hx3⟩
        exact hu1 x hx ⟨by rw [hx1, hk1], by rw [hx2, hk2], by rw [hx3, hk3]⟩
      have hmap : rs.map (fun r => if same_social_key d pid hid r then
          { r with views := vw, videos := vd, likes := lk, scraped_at := now } else r) = rs := by
        have hid2 : rs.map (fun r => if same_social_key d pid hid r then
            { r with views := vw, videos := vd, likes := lk, scraped_at := now } else r) =
            rs.map id := List.map_congr_left (fun x hx => by simp [hrs x hx])
        simpa using hid2
      have hfil : rs.filter (same_social_key d pid hid) = [] := by
        rw [List.filter_eq_nil_iff]
        intro a ha
        simp [hrs a ha]
      rw [List.map_cons, if_pos hr, List.filter_cons, if_pos hupd, hmap, hfil]
      obtain ⟨rd, rp, rh, rv1, rv2, rv3, rt⟩ := r
      rw [show rd = d from hk1, show rp = pid from hk2, show rh = hid from hk3]
    · have hany' : rs.any (same_social_key d pid hid) = true := by
        rw [List.any_cons, Bool.or_eq_true] at hany
        rcases hany with hany | hany
        · exact absurd hany hr
        · exact hany
      rw [List.map_cons, if_neg hr, List.filter_cons, if_neg (by simp [hr])]
      exact ih hu2 hany'

lemma filter_upsert_social {rows : List SocialRow} {d : Str} {pid hid : Nat}
    {vw vd lk : Option Int} {now : Nat} (hu : social_keys_unique rows) :
    (upsert_social rows d pid hid vw vd lk now).filter (same_social_key d pid hid) =
      [⟨d, pid, hid, vw, vd, lk, now⟩] := by
  unfold upsert_social
  split
  · rename_i hany
    exact filter_map_upsert_social hu hany
  · rename_i hany
    rw [List.filter_append]
    have hnone : rows.filter (same_social_key d pid hid) = [] := by
      rw [List.filter_eq_nil_iff]
      intro a ha
      have := List.any_eq_false.mp (Bool.eq_false_iff.mpr hany) a ha
      simp [this]
    rw [hnone]
    simp [same_social_key]

lemma upsert_social_unique {rows : List SocialRow} {d : Str} {pid hid : Nat}
    {vw vd lk : Option Int} {now : Nat} (hu : social_keys_unique rows) :
    social_keys_unique (upsert_social rows d pid hid vw vd lk now) := by
  unfold upsert_social
  split
  · exact List.Pairwise.map _
      (fun a b hab => by
        split <;> split <;> simpa using hab) hu
  · rename_i hany
    rw [social_keys_unique, List.pairwise_append]
    refine ⟨hu, List.pairwise_singleton _ _, ?_⟩
    intro a ha b hb
    simp only [List.mem_singleton] at hb
    subst hb
    have := List.any_eq_false.mp (Bool.eq_false_iff.mpr hany) a ha
    rw [same_social_key_iff] at this
    simpa using this

lemma filter_map_upsert_marketplace {rows : List MarketRow} {d : Str} {pid : Nat}
    {ap : Option ℚ} {oc sp : Option Int} {now : Nat}
    (hu : market_keys_unique rows) (hany : rows.any (same_market_key d pid) = true) :
    (rows.map (fun r => if same_market_key d pid r then
        ({ r with avg_price := ap, offer_count := oc, sales_proxy := sp, scraped_at := now })
      else r)).filter (same_market_key d pid) = [⟨d, pid, ap, oc, sp, now⟩] := by
  induction rows with
  | nil => simp at hany
  | cons r rs ih =>
    rw [market_keys_unique, List.pairwise_cons] at hu
    obtain ⟨hu1, hu2⟩ := hu
    by_cases hr : same_market_key d pid r = true
    · obtain ⟨hk1, hk2⟩ := same_market_key_iff.mp hr
      have hupd : same_market_key d pid
          { r with avg_price := ap, offer_count := oc, sales_proxy := sp, scraped_at := now } = true := by
        rw [same_market_key_iff]
        exact ⟨hk1, hk2⟩
      have hrs : ∀ x ∈ rs, same_market_key d pid x = false := by
        intro x hx
        rw [Bool.eq_false_iff, Ne, same_market_key_iff]
        rintro ⟨hx1, hx2⟩
        exact hu1 x hx ⟨by rw [hx1, hk1], by rw [hx2, hk2]⟩
      have hmap : rs.map (fun r => if same_market_key d pid r then
          { r with avg_price := ap, offer_count := oc, sales_proxy := sp, scraped_at := now } else r) = rs := by
        have hid2 : rs.map (fun r => if same_market_key d pid r then
            { r with avg_price := ap, offer_count := oc, sales_proxy := sp, scraped_at := now } else r) =
            rs.map id := List.map_congr_left (fun x hx => by simp [hrs x hx])
        simpa using hid2
      have hfil : rs.filter (same_market_key d pid) = [] := by
        rw [List.filter_eq_nil_iff]
        intro a ha
        simp [hrs a ha]
      rw [List.map_cons, if_pos hr, List.filter_cons, if_pos hupd, hmap, hfil]
      obtain ⟨rd, rp, rv1, rv2, rv3, rt⟩ := r
      rw [show rd = d from hk1, show rp = pid from hk2]
    · have hany' : rs.any (same_market_key d pid) = true := by
        rw [List.any_cons, Bool.or_eq_true] at hany
        rcases hany with hany | hany
        · exact absurd hany hr
        · exact hany
      rw [List.map_cons, if_neg hr, List.filter_cons, if_neg (by simp [hr])]
      exact ih hu2 hany'

lemma filter_upsert_marketplace {rows : List MarketRow} {d : Str} {pid : Nat}
    {ap : Option ℚ} {oc sp : Option Int} {now : Nat} (hu : market_keys_unique rows) :
    (upsert_marketplace rows d pid ap oc sp now).filter (same_market_key d pid) =
      [⟨d, pid, ap, oc, sp, now⟩] := by
  unfold upsert_marketplace
  split
  · rename_i hany
    exact filter_map_upsert_marketplace hu hany
  · rename_i hany
    rw [List.filter_append]
    have hnone : rows.filter (same_market_key d pid) = [] := by
      rw [List.filter_eq_nil_iff]
      intro a ha
      have := List.any_eq_false.mp (Bool.eq_false_iff.mpr hany) a ha
      simp [this]
    rw [hnone]
    simp [same_market_key]

lemma upsert_marketplace_unique {rows : List MarketRow} {d : Str} {pid : Nat}
    {ap : Option ℚ} {oc sp : Option Int} {now : Nat} (hu : market_keys_unique rows) :
    market_keys_unique (upsert_marketplace rows d pid ap oc sp now) := by
  unfold upsert_marketplace
  split
  · exact List.Pairwise.map _
      (fun a b hab => by
        split <;> split <;> simpa using hab) hu
  · rename_i hany
    rw [market_keys_unique, List.pairwise_append]
    refine ⟨hu, List.pairwise_singleton _ _, ?_⟩
    intro a ha b hb
    simp only [List.mem_singleton] at hb
    subst hb
    have := List.any_eq_false.mp (Bool.eq_false_iff.mpr hany) a ha
    rw [same_market_key_iff] at this
    simpa using this

end UpsertLemmas

section StoreRoundTrip

lemma insert_social_twice (db : DB) (now1 now2 : Nat) (d pn ht : Str)
    (vw1 vd1 lk1 vw2 vd2 lk2 : Option Int)
    (hus : social_keys_unique db.social_metrics)
    (h1 : (insert_social_metric db now1 d pn ht vw1 vd1 lk1).2 = true) :
    (insert_social_metric (insert_social_metric db now1 d pn ht vw1 vd1 lk1).1 now2 d pn ht vw2 vd2 lk2).2 = true ∧
      ∃ pid hid, get_platform_id db pn = some pid ∧ get_hashtag_id db ht = some hid ∧
        (insert_social_metric (insert_social_metric db now1 d pn ht vw1 vd1 lk1).1 now2 d pn ht vw2 vd2 lk2).1.social_metrics.filter (same_social_key d pid hid) = [⟨d, pid, hid, vw2, vd2, lk2, now2⟩] := by
  by_cases hc : (get_platform_id db pn).getD 0 = 0 ∨ (get_hashtag_id db ht).getD 0 = 0
  · exfalso
    simp only [insert_social_metric] at h1
    rw [if_pos hc] at h1
    exact Bool.false_ne_true h1
  · push_neg at hc
    obtain ⟨hc1, hc2⟩ := hc
    rcases hgp : get_platform_id db pn with _ | pid
    · rw [hgp] at hc1
      exact absurd rfl hc1
    rcases hgh : get_hashtag_id db ht with _ | hid
    · rw [hgh] at hc2
      exact absurd rfl hc2
    rw [hgp] at hc1
    rw [hgh] at hc2
    have hcond : ¬(pid = 0 ∨ hid = 0) := by
      push_neg
      exact ⟨hc1, hc2⟩
    have e1 : insert_social_metric db now1 d pn ht vw1 vd1 lk1 = ({ db with social_metrics := (upsert_social db.social_metrics d pid hid vw1 vd1 lk1 now1) }, true) := by
      simp only [insert_social_metric, hgp, hgh, Option.getD_some]
      rw [if_neg hcond]
    have hgp1 : get_platform_id ({ db with social_metrics := (upsert_social db.social_metrics d pid hid vw1 vd1 lk1 now1) }) pn = some pid := hgp
    have hgh1 : get_hashtag_id ({ db with social_metrics := (upsert_social db.social_metrics d pid hid vw1 vd1 lk1 now1) }) ht = some hid := hgh
    have e2 : insert_social_metric ({ db with social_metrics := (upsert_social db.social_metrics d pid hid vw1 vd1 lk1 now1) }) now2 d pn ht vw2 vd2 lk2 = ({ db with social_metrics := (upsert_social (upsert_social db.social_metrics d pid hid vw1 vd1 lk1 now1) d pid hid vw2 vd2 lk2 now2) }, true) := by
      simp only [insert_social_metric, hgp1, hgh1, Option.getD_some]
      rw [if_neg hcond]
    have estep : insert_social_metric (insert_social_metric db now1 d pn ht vw1 vd1 lk1).1 now2 d pn ht vw2 vd2 lk2 = ({ db with social_metrics := (upsert_social (upsert_social db.social_metrics d pid hid vw1 vd1 lk1 now1) d pid hid vw2 vd2 lk2 now2) }, true) := by
      rw [e1]
      exact e2
    refine ⟨by rw [estep], pid, hid, rfl, rfl, ?_⟩
    rw [estep]
    show (upsert_social (upsert_social db.social_metrics d pid hid vw1 vd1 lk1 now1) d pid hid vw2 vd2 lk2 now2).filter (same_social_key d pid hid) = [⟨d, pid, hid, vw2, vd2, lk2, now2⟩]
    exact filter_upsert_social (upsert_social_unique hus)

lemma insert_marketplace_twice (db : DB) (now1 now2 : Nat) (d kw : Str)
    (ap1 ap2 : Option ℚ) (oc1 sp1 oc2 sp2 : Option Int)
    (hum : market_keys_unique db.marketplace_metrics)
    (h1 : (insert_marketplace_metric db now1 d kw ap1 oc1 sp1).2 = true) :
    (insert_marketplace_metric (insert_marketplace_metric db now1 d kw ap1 oc1 sp1).1 now2 d kw ap2 oc2 sp2).2 = true ∧
      ∃ pr, get_product_id db kw = some pr ∧
        (insert_marketplace_metric (insert_marketplace_metric db now1 d kw ap1 oc1 sp1).1 now2 d kw ap2 oc2 sp2).1.marketplace_metrics.filter (same_market_key d pr) = [⟨d, pr, ap2, oc2, sp2, now2⟩] := by
  by_cases hc : (get_product_id db kw).getD 0 = 0
  · exfalso
    simp only [insert_marketplace_metric] at h1
    rw [if_pos hc] at h1
    exact Bool.false_ne_true h1
  · rcases hgp : get_product_id db kw with _ | pr
    · rw [hgp] at hc
      exact absurd rfl hc
    rw [hgp] at hc
    have hpr : ¬(pr = 0) := hc
    have e1 : insert_marketplace_metric db now1 d kw ap1 oc1 sp1 = ({ db with marketplace_metrics := (upsert_marketplace db.marketplace_metrics d pr ap1 oc1 sp1 now1) }, true) := by
      simp only [insert_marketplace_metric, hgp, Option.getD_some]
      rw [if_neg hpr]
    have hgp1 : get_product_id ({ db with marketplace_metrics := (upsert_marketplace db.marketplace_metrics d pr ap1 oc1 sp1 now1) }) kw = some pr := hgp
    have e2 : insert_marketplace_metric ({ db with marketplace_metrics := (upsert_marketplace db.marketplace_metrics d pr ap1 oc1 sp1 now1) }) now2 d kw ap2 oc2 sp2 = ({ db with marketplace_metrics := (upsert_marketplace (upsert_marketplace db.marketplace_metrics d pr ap1 oc1 sp1 now1) d pr ap2 oc2 sp2 now2) }, true) := by
      simp only [insert_marketplace_metric, hgp1, Option.getD_some]
      rw [if_neg hpr]
    have estep : insert_marketplace_metric (insert_marketplace_metric db now1 d kw ap1 oc1 sp1).1 now2 d kw ap2 oc2 sp2 = ({ db with marketplace_metrics := (upsert_marketplace (upsert_marketplace db.marketplace_metrics d pr ap1 oc1 sp1 now1) d pr ap2 oc2 sp2 now2) }, true) := by
      rw [e1]
      exact e2
    refine ⟨by rw [estep], pr, rfl, ?_⟩
    rw [estep]
    show (upsert_marketplace (upsert_marketplace db.marketplace_metrics d pr ap1 oc1 sp1 now1) d pr ap2 oc2 sp2 now2).filter (same_market_key d pr) = [⟨d, pr, ap2, oc2, sp2, now2⟩]
    exact filter_upsert_marketplace (upsert_marketplace_unique hum)

end StoreRoundTrip

/-- C1: upsert full-overwrite idempotence. On a store whose composite keys
are unique (the schema's UNIQUE constraints), if a first write for a
`(date, dimension)` key succeeded, then a second write for the same key also
succeeds, and afterwards the store holds exactly one row for that key: its
measured fields all equal the second write's values (absent values included
— a full overwrite, not a patch) and its capture timestamp is the second
write's; nothing of the first write's values survives. Holds for
`insert_social_metric` and `insert_marketplace_metric` alike. -/
theorem C1_upsert_full_overwrite (db : DB) (now1 now2 : Nat) (d pn ht kw : Str)
    (vw1 vd1 lk1 vw2 vd2 lk2 : Option Int) (ap1 ap2 : Option ℚ) (oc1 sp1 oc2 sp2 : Option Int)
    (hus : social_keys_unique db.social_metrics)
    (hum : market_keys_unique db.marketplace_metrics)
    (h1 : (insert_social_metric db now1 d pn ht vw1 vd1 lk1).2 = true)
    (h1m : (insert_marketplace_metric db now1 d kw ap1 oc1 sp1).2 = true) :
    ((insert_social_metric (insert_social_metric db now1 d pn ht vw1 vd1 lk1).1 now2 d pn ht vw2 vd2 lk2).2 = true ∧
      ∃ pid hid, get_platform_id db pn = some pid ∧ get_hashtag_id db ht = some hid ∧
        (insert_social_metric (insert_social_metric db now1 d pn ht vw1 vd1 lk1).1 now2 d pn ht vw2 vd2 lk2).1.social_metrics.filter (same_social_key d pid hid) = [⟨d, pid, hid, vw2, vd2, lk2, now2⟩]) ∧
    ((insert_marketplace_metric (insert_marketplace_metric db now1 d kw ap1 oc1 sp1).1 now2 d kw ap2 oc2 sp2).2 = true ∧
      ∃ pr, get_product_id db kw = some pr ∧
        (insert_marketplace_metric (insert_marketplace_metric db now1 d kw ap1 oc1 sp1).1 now2 d kw ap2 oc2 sp2).1.marketplace_metrics.filter (same_market_key d pr) = [⟨d, pr, ap2, oc2, sp2, now2⟩]) :=
  ⟨insert_social_twice db now1 now2 d pn ht vw1 vd1 lk1 vw2 vd2 lk2 hus h1,
   insert_marketplace_twice db now1 now2 d kw ap1 ap2 oc1 sp1 oc2 sp2 hum h1m⟩

/-- Witness for C1 on the concrete fixture store: the same social key and
the same product key written twice with different values. -/
theorem C1_upsert_full_overwrite_witness :
    ((insert_social_metric (insert_social_metric dbC1 10 "2025-01-01".data "TikTok".data "desksetup".data (some 1) none none).1 20 "2025-01-01".data "TikTok".data "desksetup".data (some 2) (some 3) none).2 = true ∧
      ∃ pid hid, get_platform_id dbC1 "TikTok".data = some pid ∧ get_hashtag_id dbC1 "desksetup".data = some hid ∧
        (insert_social_metric (insert_social_metric dbC1 10 "2025-01-01".data "TikTok".data "desksetup".data (some 1) none none).1 20 "2025-01-01".data "TikTok".data "desksetup".data (some 2) (some 3) none).1.social_metrics.filter (same_social_key "2025-01-01".data pid hid) = [⟨"2025-01-01".data, pid, hid, some 2, some 3, none, 20⟩]) ∧
    ((insert_marketplace_metric (insert_marketplace_metric dbC1 10 "2025-01-01".data "desk mat".data none (some 4) none).1 20 "2025-01-01".data "desk mat".data none (some 5) (some 6)).2 = true ∧
      ∃ pr, get_product_id dbC1 "desk mat".data = some pr ∧
        (insert_marketplace_metric (insert_marketplace_metric dbC1 10 "2025-01-01".data "desk mat".data none (some 4) none).1 20 "2025-01-01".data "desk mat".data none (some 5) (some 6)).1.marketplace_metrics.filter (same_market_key "2025-01-01".data pr) = [⟨"2025-01-01".data, pr, none, some 5, some 6, 20⟩]) :=
  C1_upsert_full_overwrite dbC1 10 20 "2025-01-01".data "TikTok".data "desksetup".data
    "desk mat".data (some 1) none none (some 2) (some 3) none none none (some 4) none (some 5) (some 6)
    List.Pairwise.nil List.Pairwise.nil rfl rfl

section QueryLemmas

lemma mem_social_filter {db : DB} {s e : Str} {pf : Option Str} {x : SocialOut} :
    x ∈ social_filter db s e pf ↔
      ∃ r ∈ db.social_metrics, ∃ p ∈ db.platforms, ∃ h ∈ db.hashtags,
        p.1 = r.platform_id ∧ h.1 = r.hashtag_id ∧ s ≤ r.date ∧ r.date ≤ e ∧
        pf_ok pf p.2 = true ∧ x = ⟨r.date, p.2, h.2, r.views, r.videos, r.likes⟩ := by
  simp only [social_filter, List.mem_flatMap, List.mem_filterMap]
  constructor
  · rintro ⟨r, hr, p, hp, h, hh, hite⟩
    by_cases hcnd : p.1 = r.platform_id ∧ h.1 = r.hashtag_id ∧ s ≤ r.date ∧ r.date ≤ e ∧ pf_ok pf p.2 = true
    · rw [if_pos hcnd] at hite
      obtain ⟨hc1, hc2, hc3, hc4, hc5⟩ := hcnd
      exact ⟨r, hr, p, hp, h, hh, hc1, hc2, hc3, hc4, hc5, (Option.some_inj.mp hite).symm⟩
    · rw [if_neg hcnd] at hite
      exact absurd hite (by simp)
  · rintro ⟨r, hr, p, hp, h, hh, hc1, hc2, hc3, hc4, hc5, hx⟩
    refine ⟨r, hr, p, hp, h, hh, ?_⟩
    rw [if_pos ⟨hc1, hc2, hc3, hc4, hc5⟩, hx]

lemma mem_market_filter {db : DB} {s e : Str} {kf : Option Str} {y : MarketOut} :
    y ∈ market_filter db s e kf ↔
      ∃ r ∈ db.marketplace_metrics, ∃ p ∈ db.products,
        p.1 = r.product_id ∧ s ≤ r.date ∧ r.date ≤ e ∧ pf_ok kf p.2 = true ∧
        y = ⟨r.date, p.2, r.avg_price, r.offer_count, r.sales_proxy⟩ := by
  simp only [market_filter, List.mem_flatMap, List.mem_filterMap]
  constructor
  · rintro ⟨r, hr, p, hp, hite⟩
    by_cases hcnd : p.1 = r.product_id ∧ s ≤ r.date ∧ r.date ≤ e ∧ pf_ok kf p.2 = true
    · rw [if_pos hcnd] at hite
      obtain ⟨hc1, hc2, hc3, hc4⟩ := hcnd
      exact ⟨r, hr, p, hp, hc1, hc2, hc3, hc4, (Option.some_inj.mp hite).symm⟩
    · rw [if_neg hcnd] at hite
      exact absurd hite (by simp)
  · rintro ⟨r, hr, p, hp, hc1, hc2, hc3, hc4, hy⟩
    refine ⟨r, hr, p, hp, ?_⟩
    rw [if_pos ⟨hc1, hc2, hc3, hc4⟩, hy]

lemma socialLe_iff {a b : SocialOut} :
    socialLe a b ↔
      (b.date < a.date ∨ (a.date = b.date ∧
        (a.platform < b.platform ∨ (a.platform = b.platform ∧ a.hashtag ≤ b.hashtag)))) := by
  unfold socialLe socialKey
  simp [Prod.Lex.le_iff]

lemma marketLe_iff {a b : MarketOut} :
    marketLe a b ↔
      (b.date < a.date ∨ (a.date = b.date ∧ a.keyword ≤ b.keyword)) := by
  unfold marketLe marketKey
  simp [Prod.Lex.le_iff]

end QueryLemmas

/-- C9: range-query ordering. `get_social_metrics` returns a list sorted by
the order `socialLe` — date descending, then platform name ascending, then
hashtag ascending (TEXT = code-point comparison, the last conjunct spells
the order out) — and, as a permutation of the unsorted join, it contains
exactly the social rows whose date lies in the inclusive range, joined with
platform name and hashtag text and subject to the optional platform filter.
`get_marketplace_metrics` symmetrically: date descending then keyword
ascending, containing exactly the in-range rows joined with the keyword. -/
theorem C9_range_query_ordering (db : DB) (s e d1 d2 : Str) (pf kf : Option Str) :
    (List.Sorted socialLe (get_social_metrics db s e pf) ∧
      (get_social_metrics db s e pf).Perm (social_filter db s e pf) ∧
      (∀ x : SocialOut, x ∈ get_social_metrics db s e pf ↔
        ∃ r ∈ db.social_metrics, ∃ p ∈ db.platforms, ∃ h ∈ db.hashtags,
          p.1 = r.platform_id ∧ h.1 = r.hashtag_id ∧ s ≤ r.date ∧ r.date ≤ e ∧
          pf_ok pf p.2 = true ∧ x = ⟨r.date, p.2, h.2, r.views, r.videos, r.likes⟩) ∧
      (∀ a b : SocialOut, socialLe a b ↔
        (b.date < a.date ∨ (a.date = b.date ∧
          (a.platform < b.platform ∨ (a.platform = b.platform ∧ a.hashtag ≤ b.hashtag)))))) ∧
    (List.Sorted marketLe (get_marketplace_metrics db d1 d2 kf) ∧
      (get_marketplace_metrics db d1 d2 kf).Perm (market_filter db d1 d2 kf) ∧
      (∀ y : MarketOut, y ∈ get_marketplace_metrics db d1 d2 kf ↔
        ∃ r ∈ db.marketplace_metrics, ∃ p ∈ db.products,
          p.1 = r.product_id ∧ d1 ≤ r.date ∧ r.date ≤ d2 ∧ pf_ok kf p.2 = true ∧
          y = ⟨r.date, p.2, r.avg_price, r.offer_count, r.sales_proxy⟩) ∧
      (∀ a b : MarketOut, marketLe a b ↔
        (b.date < a.date ∨ (a.date = b.date ∧ a.keyword ≤ b.keyword)))) := by
  refine ⟨⟨List.sorted_insertionSort socialLe (social_filter db s e pf),
      List.perm_insertionSort socialLe (social_filter db s e pf), ?_,
      fun a b => socialLe_iff⟩,
    List.sorted_insertionSort marketLe (market_filter db d1 d2 kf),
    List.perm_insertionSort marketLe (market_filter db d1 d2 kf), ?_,
    fun a b => marketLe_iff⟩
  · intro x
    rw [show get_social_metrics db s e pf =
        List.insertionSort socialLe (social_filter db s e pf) from rfl,
      (List.perm_insertionSort socialLe (social_filter db s e pf)).mem_iff]
    exact mem_social_filter
  · intro y
    rw [show get_marketplace_metrics db d1 d2 kf =
        List.insertionSort marketLe (market_filter db d1 d2 kf) from rfl,
      (List.perm_insertionSort marketLe (market_filter db d1 d2 kf)).mem_iff]
    exact mem_market_filter
